import Mathlib

/-!
# DXSpider dashboard utilities (`dashboard/public/js/app.js`)

A shallow embedding of the browser-side helper classes `CallsignLookup`,
`FrequencyUtils`, `DashboardPreferences`, `SpotExporter` and `SpotNotifier`,
followed by the properties established about them. `downloadCSV` is not
embedded: it acts on the document only.

JavaScript strings are embedded as Lean strings and inspected character by
character through `String.toList`; every character the patterns below accept
is ASCII, so code units and characters coincide where it matters.
-/

set_option autoImplicit false

namespace DXSpider

/-! ## Regular-expression fragment used by `CallsignLookup` -/

/-- The class `[A-Z]` (no `i` flag: upper case only). -/
def isUpperAZ (c : Char) : Bool := decide (65 ≤ c.toNat) && decide (c.toNat ≤ 90)

/-- The class `[0-9]`. -/
def isDigit09 (c : Char) : Bool := decide (48 ≤ c.toNat) && decide (c.toNat ≤ 57)

/-- The class `[A-Z0-9]`. -/
def isAlnum (c : Char) : Bool := isUpperAZ c || isDigit09 c

/-- One element of a pattern: a character class under the greedy bounded
quantifier `{lo,hi}` (a bare class is `{1,1}`), or the assertion `$`. -/
inductive Item where
  | cls (p : Char → Bool) (lo hi : Nat)
  | eos

/-- Backtracking match of `p{lo,hi}` followed by the continuation `k`.
The quantifier is greedy: taking one more character is tried first, stopping
here is the fallback, allowed once the lower bound is used up. -/
def matchRep (p : Char → Bool) (k : List Char → Option (List Char)) :
    Nat → Nat → List Char → Option (List Char)
  | lo, 0, s => if lo = 0 then k s else none
  | lo, _ + 1, [] => if lo = 0 then k [] else none
  | lo, hi + 1, c :: t =>
      if p c then
        match matchRep p k (lo - 1) hi t with
        | some r => some r
        | none => if lo = 0 then k (c :: t) else none
      else if lo = 0 then k (c :: t) else none

/-- Match a sequence of items at the head of the input; the result is the
input left over after the first match in backtracking order. `$` has no `m`
flag in the source, so it holds at the very end of the input only. -/
def matchItems : List Item → List Char → Option (List Char)
  | [], s => some s
  | Item.eos :: rest, s => if s.isEmpty then matchItems rest s else none
  | Item.cls p lo hi :: rest, s => matchRep p (matchItems rest) lo hi s

/-- The literal `/^[A-Z0-9]{1,3}[0-9][A-Z0-9]{0,3}[A-Z]$/`. The leading `^`
(no `m` flag) pins the match to index 0, which is where `matchItems` starts. -/
def callsignPattern : List Item :=
  [Item.cls isAlnum 1 3, Item.cls isDigit09 1 1, Item.cls isAlnum 0 3,
   Item.cls isUpperAZ 1 1, Item.eos]

/-- The method `CallsignLookup.isValidCallsign`: `pattern.test(callsign)`. -/
def isValidCallsign (callsign : String) : Bool :=
  (matchItems callsignPattern callsign.toList).isSome

/-- The shape the specification gives for a valid callsign: 1 to 3
alphanumerics, one digit, 0 to 3 alphanumerics, one final upper-case letter,
covering the whole text. -/
def CallsignShape (s : List Char) : Prop :=
  ∃ (a : List Char) (d : Char) (b : List Char) (l : Char),
    s = a ++ d :: (b ++ [l]) ∧
    1 ≤ a.length ∧ a.length ≤ 3 ∧ (∀ c ∈ a, isAlnum c = true) ∧
    isDigit09 d = true ∧
    b.length ≤ 3 ∧ (∀ c ∈ b, isAlnum c = true) ∧
    isUpperAZ l = true

/-- The literal `/^([A-Z0-9]{1,3}[0-9])/`; its one group spans the whole match. -/
def prefixPattern : List Item :=
  [Item.cls isAlnum 1 3, Item.cls isDigit09 1 1]

/-- The method `CallsignLookup.extractPrefix`: `match[1]` is the text the match
consumed, the input without what the matcher left over, and `''` stands in
when `match` returns `null`. -/
def extractPrefix (callsign : String) : String :=
  match matchItems prefixPattern callsign.toList with
  | some rest => String.mk (callsign.toList.take (callsign.toList.length - rest.length))
  | none => ""

/-- The class `[-\/]`. -/
def isSeparator (c : Char) : Bool := decide (c = '-') || decide (c = '/')

/-- The call `split` with a one-character class as separator. Such a
separator never matches the empty string, so the array is never empty: it is
given as its element 0 and the list of the elements after it. -/
def splitClass (p : Char → Bool) : List Char → List Char × List (List Char)
  | [] => ([], [])
  | c :: t =>
      if p c then ([], (splitClass p t).1 :: (splitClass p t).2)
      else (c :: (splitClass p t).1, (splitClass p t).2)

/-- The method `CallsignLookup.stripSSID`: `callsign.split(/[-\/]/)[0]`. -/
def stripSSID (callsign : String) : String :=
  String.mk (splitClass isSeparator callsign.toList).1

/-- The shape the specification gives for a prefix: 1 to 3 alphanumerics
followed by a digit. -/
def PrefixShape (p : List Char) : Prop :=
  ∃ (a : List Char) (d : Char),
    p = a ++ [d] ∧ 1 ≤ a.length ∧ a.length ≤ 3 ∧ (∀ c ∈ a, isAlnum c = true) ∧
    isDigit09 d = true

/-! ## `FrequencyUtils` -/

/-- The `bands` object literal of `getBandFromFrequency`, as the entries
`Object.entries` yields them (no key is an integer index, so they come in
source order): label, low and high bound in kHz. -/
def bands : List (String × ℚ × ℚ) :=
  [("160m", 1800, 2000),
   ("80m", 3500, 4000),
   ("60m", 5250, 5450),
   ("40m", 7000, 7300),
   ("30m", 10100, 10150),
   ("20m", 14000, 14350),
   ("17m", 18068, 18168),
   ("15m", 21000, 21450),
   ("12m", 24890, 24990),
   ("10m", 28000, 29700),
   ("6m", 50000, 54000),
   ("2m", 144000, 148000),
   ("70cm", 420000, 450000)]

/-- The loop of `getBandFromFrequency` over a table of entries: the label of
the first entry with `freqKhz >= low && freqKhz <= high`, or `'other'`. -/
def firstBand (freqKhz : ℚ) : List (String × ℚ × ℚ) → String
  | [] => "other"
  | (band, low, high) :: rest =>
      if freqKhz ≥ low ∧ freqKhz ≤ high then band else firstBand freqKhz rest

/-- The method `FrequencyUtils.getBandFromFrequency` on a finite number of kHz. -/
def getBandFromFrequency (freqKhz : ℚ) : String := firstBand freqKhz bands

/-- Frequency `f` lies in the inclusive range of table entry `e`. -/
def InRange (f : ℚ) (e : String × ℚ × ℚ) : Prop := e.2.1 ≤ f ∧ f ≤ e.2.2

/-! ### `formatFrequency`

A finite number is its exact rational value. The one floating-point operation
of `formatFrequency` is the division `freqKhz / 1000`, which yields the
binary64 number nearest to the exact quotient (ties to even); `toFixed` is
defined by the language on the exact value of its number. -/

/-- The integer nearest to `r`, the even one of the two when `r` lies half way. -/
def roundHalfEven (r : ℚ) : ℤ :=
  if r - Rat.floor r < 1 / 2 then Rat.floor r
  else if 1 / 2 < r - Rat.floor r then Rat.floor r + 1
  else if Rat.floor r % 2 = 0 then Rat.floor r else Rat.floor r + 1

/-- The spacing of the binary64 numbers around `q`, for `q` at least 1: with
`2^e <= q < 2^(e+1)` they are the multiples of `2^(e-52)`. -/
def ulpAt (q : ℚ) : ℚ := (2 : ℚ) ^ Nat.log2 (Rat.floor q).toNat / 2 ^ 52

/-- The binary64 number nearest to `q`, ties to even, for `q` at least 1 and
below the overflow threshold: the value of the division `freqKhz / 1000` on
its exact quotient, which is in that range for every finite `freqKhz` from
1000 on. -/
def roundDouble (q : ℚ) : ℚ := roundHalfEven (q / ulpAt q) * ulpAt q

/-- The character of a decimal digit. -/
def digitChar (d : Nat) : Char := Char.ofNat (48 + d)

/-- The decimal digits of `n` with fuel for the recursion; fuel `n` is enough. -/
def decimalDigitsFuel : Nat → Nat → List Char
  | 0, n => [digitChar n]
  | fuel + 1, n =>
      if n < 10 then [digitChar n] else decimalDigitsFuel fuel (n / 10) ++ [digitChar (n % 10)]

/-- The digits of the decimal representation of `n`, in order, with no leading
zero (`0` for zero). -/
def decimalDigits (n : Nat) : List Char := decimalDigitsFuel n n

/-- The `k`-digit integer `s` of `Number::toString` for the integer `X` of `n`
decimal digits, if there is one: `s * 10^(n-k)` must have `X` as its binary64
number. Of the two multiples of `10^(n-k)` around `X` the nearer qualifying
one is taken. -/
def shortestDigitsAt (X n k : Nat) : Option Nat :=
  let p := 10 ^ (n - k)
  let lo := X / p
  let okLo : Bool := decide (roundDouble ((lo * p : Nat) : ℚ) = (X : ℚ))
  let okHi : Bool := decide (roundDouble (((lo + 1) * p : Nat) : ℚ) = (X : ℚ))
  if okLo && okHi then (if X - lo * p ≤ (lo + 1) * p - X then some lo else some (lo + 1))
  else if okLo then some lo
  else if okHi then some (lo + 1)
  else none

/-- The search of `Number::toString` for the least number of digits `k`, from
`k` upwards, giving `s` and `k`. Seventeen digits always identify a binary64
number, so the fuel of 17 given by the caller is never used up. -/
def shortestDigits (X n : Nat) : Nat → Nat → Nat × Nat
  | 0, k => (X / 10 ^ (n - k), k)
  | fuel + 1, k =>
      match shortestDigitsAt X n k with
      | some s => (s, k)
      | none => shortestDigits X n fuel (k + 1)

/-- The text of `Number::toString` for a number from `10^21` on (an integer, as
every binary64 number of that size is): the shortest digits that identify it,
a point after the first digit when there are several, then `e+` and the
exponent. -/
def exponentNotation (x : ℚ) : String :=
  let X := (Rat.floor x).toNat
  let n := (decimalDigits X).length
  let sk := shortestDigits X n 17 1
  let s := if sk.1 = 10 ^ sk.2 then 1 else sk.1
  let k := if sk.1 = 10 ^ sk.2 then 1 else sk.2
  let n := if sk.1 = 10 ^ sk.2 then n + 1 else n
  if k = 1 then String.mk (decimalDigits s ++ 'e' :: '+' :: decimalDigits (n - 1))
  else String.mk ((decimalDigits s).take 1 ++
    '.' :: ((decimalDigits s).drop 1 ++ 'e' :: '+' :: decimalDigits (n - 1)))

/-- The steps of `Number.prototype.toFixed(1)` after the sign is taken off:
from `10^21` on the text of `Number::toString`; below it the integer `n` with
`n / 10` nearest to `x` (the larger `n` of two), its digits padded with a zero
when there is only one, and a point before the last digit. -/
def fixedDigits (x : ℚ) : String :=
  if x ≥ 10 ^ 21 then exponentNotation x
  else
    let n := (Rat.floor (10 * x + 1 / 2)).toNat
    let m := decimalDigits n
    let m := if m.length ≤ 1 then List.replicate (1 + 1 - m.length) '0' ++ m else m
    String.mk (m.take (m.length - 1) ++ '.' :: m.drop (m.length - 1))

/-- The method `Number.prototype.toFixed` with argument 1, on the exact value
of a finite number. -/
def toFixed1 (x : ℚ) : String :=
  if x < 0 then "-" ++ fixedDigits (-x) else fixedDigits x

/-- The method `FrequencyUtils.formatFrequency` on a finite number of kHz. -/
def formatFrequency (freqKhz : ℚ) : String :=
  if freqKhz ≥ 1000 then toFixed1 (roundDouble (freqKhz / 1000)) ++ " MHz"
  else toFixed1 freqKhz ++ " kHz"

/-! ## `DashboardPreferences`

The class keeps no state of its own: everything lives in the one
`localStorage` slot named by `storageKey`. The slot's text is represented by
what `JSON.parse` makes of it, and the text `JSON.stringify` writes by what a
later `JSON.parse` makes of that (`render`). The `console.warn` calls of the
`catch` blocks have no effect on any result and are left out. -/

/-- A number as `JSON.parse` produces it: a finite value, negative zero (from
text such as `-0`) or an infinity (from text such as `1e999`). -/
inductive JSNumber where
  | finite (q : ℚ)
  | negZero
  | posInf
  | negInf

/-- Numerals denote finite numbers. -/
instance (n : Nat) : OfNat JSNumber n := ⟨JSNumber.finite n⟩

/-- JSON data: what `JSON.parse` produces. -/
inductive Json where
  | null
  | bool (b : Bool)
  | num (x : JSNumber)
  | str (s : String)
  | arr (items : List Json)
  | obj (props : List (String × Json))

mutual
/-- What a later `JSON.parse` gives back for the text `JSON.stringify` writes
for a piece of data: an infinity is written `null` and negative zero is
written `0`, at every depth; everything else comes back as it was. -/
def render : Json → Json
  | Json.null => Json.null
  | Json.bool b => Json.bool b
  | Json.num (JSNumber.finite q) => Json.num (JSNumber.finite q)
  | Json.num JSNumber.negZero => Json.num (JSNumber.finite 0)
  | Json.num JSNumber.posInf => Json.null
  | Json.num JSNumber.negInf => Json.null
  | Json.str s => Json.str s
  | Json.arr items => Json.arr (renderItems items)
  | Json.obj props => Json.obj (renderProps props)
/-- The elements of an array, each written and parsed back. -/
def renderItems : List Json → List Json
  | [] => []
  | x :: rest => render x :: renderItems rest
/-- The properties of an object, each value written and parsed back. -/
def renderProps : List (String × Json) → List (String × Json)
  | [] => []
  | (k, v) :: rest => (k, render v) :: renderProps rest
end

/-- Values that `get` can hand back: `undefined`, JSON data, and what a plain
object inherits from `Object.prototype` (the prototype itself, read through
`__proto__`, and its built-in methods). -/
inductive JSValue where
  | undefined
  | json (j : Json)
  | objectPrototype
  | builtinFunction (name : String)

/-- The value `JSON.parse` returns for the slot's text, where it is the text of
an object or of `null`. Text of an array, number, string or boolean is outside
this embedding. -/
inductive Parsed where
  | null
  | object (props : List (String × Json))

/-- Text held by the storage slot. -/
inductive SlotText where
  | empty
  | corrupt
  | wellformed (v : Parsed)

/-- The browser storage as the class sees it: the slot under `storageKey`
(`none` when `getItem` returns `null`) and whether `localStorage.getItem` and
`localStorage.setItem` throw. -/
structure Storage where
  slot : Option SlotText
  readFails : Bool
  writeFails : Bool

/-- Exceptions raised by the operations involved. -/
inductive JSError where
  | typeError
  | syntaxError
  | storageError

/-- The call `localStorage.getItem(this.storageKey)`. -/
def getItem (st : Storage) : Except JSError (Option SlotText) :=
  if st.readFails then Except.error JSError.storageError else Except.ok st.slot

/-- The call `JSON.parse(data)` on text: a `SyntaxError` unless the text is
well formed. -/
def jsonParse : SlotText → Except JSError Parsed
  | SlotText.wellformed v => Except.ok v
  | SlotText.empty => Except.error JSError.syntaxError
  | SlotText.corrupt => Except.error JSError.syntaxError

/-- Truthiness of `data` in `data ? JSON.parse(data) : {}`: `null` and the
empty string are falsy. -/
def truthy : Option SlotText → Bool
  | none => false
  | some SlotText.empty => false
  | some _ => true

/-- The `try` block of `load`. -/
def loadTry (st : Storage) : Except JSError Parsed :=
  match getItem st with
  | Except.error e => Except.error e
  | Except.ok data =>
      if truthy data then
        match data with
        | some t => jsonParse t
        | none => Except.ok (Parsed.object [])
      else Except.ok (Parsed.object [])

/-- The method `DashboardPreferences.load`: the `catch` block returns `{}`. -/
def load (st : Storage) : Parsed :=
  match loadTry st with
  | Except.ok v => v
  | Except.error _ => Parsed.object []

/-- Names of the function-valued properties of `Object.prototype`. -/
def objectPrototypeFunctions : List String :=
  ["constructor", "hasOwnProperty", "isPrototypeOf", "propertyIsEnumerable",
   "toLocaleString", "toString", "valueOf", "__defineGetter__", "__defineSetter__",
   "__lookupGetter__", "__lookupSetter__"]

/-- The own property `key` of an object, if there is one. -/
def lookupOwn (key : String) : List (String × Json) → Option Json
  | [] => none
  | (k, v) :: rest => if k = key then some v else lookupOwn key rest

/-- The read `prefs[key]`: an own property first, then `Object.prototype`;
reading a property of `null` throws a `TypeError`. -/
def getProp (prefs : Parsed) (key : String) : Except JSError JSValue :=
  match prefs with
  | Parsed.null => Except.error JSError.typeError
  | Parsed.object props =>
      match lookupOwn key props with
      | some j => Except.ok (JSValue.json j)
      | none =>
          if key = "__proto__" then Except.ok JSValue.objectPrototype
          else if key ∈ objectPrototypeFunctions then Except.ok (JSValue.builtinFunction key)
          else Except.ok JSValue.undefined

/-- Replace the value of own property `key`, or append it as a new one. -/
def setOwn (key : String) (value : Option Json) :
    List (String × Option Json) → List (String × Option Json)
  | [] => [(key, value)]
  | (k, v) :: rest =>
      if k = key then (k, value) :: rest else (k, v) :: setOwn key value rest

/-- The own properties of a freshly parsed object, as run-time properties
(which may come to hold `undefined`, written `none`). -/
def ownProps (props : List (String × Json)) : List (String × Option Json) :=
  props.map (fun kv => (kv.1, some kv.2))

/-- The assignment `prefs[key] = value` (`none` is `undefined`), giving the
own properties of `prefs` afterwards. On `null` it throws a `TypeError`. On an
object without an own `__proto__` the key `__proto__` reaches the setter
inherited from `Object.prototype`, which creates no own property. -/
def setProp (prefs : Parsed) (key : String) (value : Option Json) :
    Except JSError (List (String × Option Json)) :=
  match prefs with
  | Parsed.null => Except.error JSError.typeError
  | Parsed.object props =>
      if key = "__proto__" ∧ (lookupOwn key props).isNone then Except.ok (ownProps props)
      else Except.ok (setOwn key value (ownProps props))

/-- The properties `JSON.stringify` renders: those whose value is not
`undefined`. -/
def definedProps : List (String × Option Json) → List (String × Json)
  | [] => []
  | (k, some j) :: rest => (k, j) :: definedProps rest
  | (_, none) :: rest => definedProps rest

/-- The call `JSON.stringify(prefs)`, as the data a later `JSON.parse` gives
back. -/
def jsonStringify (own : List (String × Option Json)) : SlotText :=
  SlotText.wellformed (Parsed.object (renderProps (definedProps own)))

/-- The call `localStorage.setItem(this.storageKey, text)`. -/
def setItem (st : Storage) (text : SlotText) : Except JSError Storage :=
  if st.writeFails then Except.error JSError.storageError
  else Except.ok { st with slot := some text }

/-- The `try` block of `save`. -/
def saveTry (st : Storage) (key : String) (value : Option Json) : Except JSError Storage :=
  match setProp (load st) key value with
  | Except.error e => Except.error e
  | Except.ok own => setItem st (jsonStringify own)

/-- The method `DashboardPreferences.save(key, value)` with `value` JSON data or
`undefined` (`none`): the `catch` block leaves the storage as it was. -/
def save (st : Storage) (key : String) (value : Option Json) : Storage :=
  match saveTry st key value with
  | Except.ok st2 => st2
  | Except.error _ => st

/-- The method `DashboardPreferences.get(key, defaultValue = null)`; an omitted
`defaultValue` is `undefined`, which the parameter default turns into `null`.
Nothing in `get` catches. -/
def get (st : Storage) (key : String) (defaultValue : JSValue) : Except JSError JSValue :=
  let d := match defaultValue with
    | JSValue.undefined => JSValue.json Json.null
    | v => v
  let prefs := load st
  match getProp prefs key with
  | Except.error e => Except.error e
  | Except.ok JSValue.undefined => Except.ok d
  | Except.ok _ => getProp prefs key

/-- The value `load` returns is a mapping (an object), not `null`. -/
def Parsed.isMapping : Parsed → Bool
  | Parsed.object _ => true
  | Parsed.null => false

/-- Key `key` is present in the store: an own property of the loaded mapping. -/
def present (st : Storage) (key : String) : Bool :=
  match load st with
  | Parsed.object props => (lookupOwn key props).isSome
  | Parsed.null => false

/-! ## `SpotExporter` -/

/-- A spot record as `exportToCSV` reads it; the fields are text. -/
structure Spot where
  formatted_time : String
  formatted_freq : String
  callsign : String
  spotter : String
  comment : String
  band : String
  deriving DecidableEq

/-- The method `Array.prototype.join` on an array of strings. -/
def join (sep : String) : List String → String
  | [] => ""
  | [x] => x
  | x :: y :: rest => x ++ sep ++ join sep (y :: rest)

/-- The `headers` array of `exportToCSV`. -/
def headers : List String :=
  ["Time", "Frequency", "Callsign", "Spotter", "Comment", "Band"]

/-- The method `SpotExporter.exportToCSV`; a cell that is text is its own
rendering in the template literal. -/
def exportToCSV (spots : List Spot) : String :=
  let rows := spots.map (fun spot =>
    [spot.formatted_time, spot.formatted_freq, spot.callsign, spot.spotter,
     spot.comment, spot.band])
  let csvContent := join "\n"
    (join "," headers :: rows.map (fun row => join "," (row.map (fun cell => "\"" ++ cell ++ "\""))))
  csvContent

/-- The header row as the specification spells it. -/
def headerRow : String := "Time,Frequency,Callsign,Spotter,Comment,Band"

/-- A field between double quotes. -/
def quoted (field : String) : String := "\"" ++ field ++ "\""

/-- The row of a spot as the specification describes it: the six fields in
order, each between double quotes, separated by commas. -/
def csvRow (s : Spot) : String :=
  quoted s.formatted_time ++ "," ++ quoted s.formatted_freq ++ "," ++ quoted s.callsign ++ ","
    ++ quoted s.spotter ++ "," ++ quoted s.comment ++ "," ++ quoted s.band

/-- The CSV text as the specification describes it: the header row, then for
each spot in order a newline and the spot's row. -/
def csvText (spots : List Spot) : String :=
  spots.foldl (fun acc s => acc ++ "\n" ++ csvRow s) headerRow

/-- The one-spot input of the specification's example. -/
def exampleSpot : Spot :=
  { formatted_time := "12:00", formatted_freq := "14.200", callsign := "W1AW",
    spotter := "K1ABC", comment := "cq", band := "20m" }

/-- No field of the spot contains a double quote. -/
def QuoteFree (s : Spot) : Prop :=
  '"' ∉ s.formatted_time.toList ∧ '"' ∉ s.formatted_freq.toList ∧ '"' ∉ s.callsign.toList ∧
  '"' ∉ s.spotter.toList ∧ '"' ∉ s.comment.toList ∧ '"' ∉ s.band.toList

/-- The characters after the header row: for each spot a newline and its row. -/
def rowsText : List Spot → List Char
  | [] => []
  | s :: t => '\n' :: ((csvRow s).toList ++ rowsText t)

/-! ## `SpotNotifier`

The notifier has two fields, `enabled` and `audioContext`. What it does to the
host is recorded next to them: how many audio contexts it has constructed and
which sounds it has scheduled. The Web Audio calls of `playBeep` are taken to
succeed; none of them touches a field of the notifier. -/

/-- What `new (window.AudioContext || window.webkitAudioContext)()` meets in the
host: a working constructor, no constructor at all (`new undefined()` is a
`TypeError`), or a constructor that throws. -/
inductive AudioHost where
  | working
  | noConstructor
  | constructionFails

/-- Exceptions that reach the caller of `enable`. -/
inductive AudioError where
  | notAConstructor
  | constructionFailed

/-- A sound scheduled by `playBeep`: an oscillator of the given type and
frequency on the given context, its gain set to `gainStart` now and ramped
exponentially to `gainEnd` at `stopAfter` seconds from now, when it stops. -/
structure Beep where
  context : Nat
  waveform : String
  frequency : ℚ
  gainStart : ℚ
  gainEnd : ℚ
  stopAfter : ℚ

/-- A `SpotNotifier` instance: its fields `enabled` and `audioContext` (`none`
is `null`, a context is named by its rank among those the instance created),
with the number of contexts constructed and the sounds scheduled so far. -/
structure Notifier where
  enabled : Bool
  audioContext : Option Nat
  created : Nat
  beeps : List Beep

/-- The constructor of `SpotNotifier`. -/
def Notifier.fresh : Notifier :=
  { enabled := false, audioContext := none, created := 0, beeps := [] }

/-- The method `SpotNotifier.enable`: the state afterwards and the exception
that reaches the caller, if any. `enabled` is set before the context is
constructed, and nothing in the method catches. -/
def enable (host : AudioHost) (n : Notifier) : Notifier × Option AudioError :=
  let n1 := { n with enabled := true }
  if n1.audioContext.isNone then
    match host with
    | AudioHost.working =>
        ({ n1 with audioContext := some n1.created, created := n1.created + 1 }, none)
    | AudioHost.noConstructor => (n1, some AudioError.notAConstructor)
    | AudioHost.constructionFails => (n1, some AudioError.constructionFailed)
  else (n1, none)

/-- The method `SpotNotifier.disable`. -/
def disable (n : Notifier) : Notifier := { n with enabled := false }

/-- The method `SpotNotifier.playBeep(frequency, duration)`. -/
def playBeep (frequency duration : ℚ) (n : Notifier) : Notifier :=
  if (!n.enabled) || n.audioContext.isNone then n
  else
    match n.audioContext with
    | none => n
    | some ctx =>
        { n with beeps := n.beeps ++
            [{ context := ctx, waveform := "sine", frequency := frequency,
               gainStart := 3 / 10, gainEnd := 1 / 100, stopAfter := duration / 1000 }] }

/-- The method `SpotNotifier.notifyNewSpot`. -/
def notifyNewSpot (n : Notifier) : Notifier := playBeep 880 80 n

/-- A call on a notifier. -/
inductive Op where
  | enable (host : AudioHost)
  | disable
  | playBeep (frequency duration : ℚ)
  | notifyNewSpot

/-- The state after one call; an exception thrown by `enable` is left to the
caller and the state it leaves behind is kept. -/
def step (n : Notifier) : Op → Notifier
  | Op.enable host => (enable host n).1
  | Op.disable => disable n
  | Op.playBeep frequency duration => playBeep frequency duration n
  | Op.notifyNewSpot => notifyNewSpot n

/-- The state after a sequence of calls. -/
def run (ops : List Op) (n : Notifier) : Notifier := ops.foldl step n

/-! ## Properties -/

/-- What `matchRep` accepts: some prefix of the input of admissible length,
all of whose characters are in the class, with the continuation accepting the
rest. -/
theorem matchRep_isSome (p : Char → Bool) (k : List Char → Option (List Char))
    (hi lo : Nat) (s : List Char) :
    (matchRep p k lo hi s).isSome = true ↔
      ∃ a r, s = a ++ r ∧ lo ≤ a.length ∧ a.length ≤ hi ∧
        (∀ c ∈ a, p c = true) ∧ (k r).isSome = true := by
  induction hi generalizing lo s with
  | zero =>
    simp only [matchRep]
    constructor
    · intro h
      split at h
      · next h0 => exact ⟨[], s, by simp, by simp [h0], by simp, by simp, h⟩
      · simp at h
    · rintro ⟨a, r, rfl, hlo, hhi, -, hk⟩
      have ha : a = [] := List.length_eq_zero.mp (by omega)
      subst ha
      have : lo = 0 := by simpa using hlo
      simpa [this] using hk
  | succ hi ih =>
    cases s with
    | nil =>
      simp only [matchRep]
      constructor
      · intro h
        split at h
        · next h0 => exact ⟨[], [], by simp, by simp [h0], by simp, by simp, h⟩
        · simp at h
      · rintro ⟨a, r, hs, hlo, -, -, hk⟩
        have hs2 := hs.symm
        rw [List.append_eq_nil] at hs2
        obtain ⟨rfl, rfl⟩ := hs2
        have : lo = 0 := by simpa using hlo
        simpa [this] using hk
    | cons c t =>
      simp only [matchRep]
      constructor
      · intro h
        by_cases hp : p c = true
        · rw [if_pos hp] at h
          cases hrec : matchRep p k (lo - 1) hi t with
          | some r0 =>
            have h1 : (matchRep p k (lo - 1) hi t).isSome = true := by simp [hrec]
            obtain ⟨a, r, rfl, hlo, hhi, hall, hk⟩ := (ih (lo - 1) t).mp h1
            refine ⟨c :: a, r, by simp, by simp; omega, by simp; omega, ?_, hk⟩
            intro x hx
            rcases List.mem_cons.mp hx with rfl | hx
            · exact hp
            · exact hall x hx
          | none =>
            rw [hrec] at h
            simp only at h
            split at h
            · next h0 => exact ⟨[], c :: t, by simp, by simp [h0], by simp, by simp, h⟩
            · simp at h
        · rw [if_neg hp] at h
          split at h
          · next h0 => exact ⟨[], c :: t, by simp, by simp [h0], by simp, by simp, h⟩
          · simp at h
      · rintro ⟨a, r, hs, hlo, hhi, hall, hk⟩
        cases a with
        | nil =>
          have h0 : lo = 0 := by simpa using hlo
          simp only [List.nil_append] at hs
          subst hs
          subst h0
          by_cases hp : p c = true
          · rw [if_pos hp]
            cases hrec : matchRep p k (0 - 1) hi t with
            | some r0 => simp
            | none => simpa using hk
          · rw [if_neg hp]
            simpa using hk
        | cons x a =>
          simp only [List.cons_append, List.cons.injEq] at hs
          obtain ⟨rfl, rfl⟩ := hs
          have hp : p c = true := hall c (by simp)
          rw [if_pos hp]
          have h1 : (matchRep p k (lo - 1) hi (a ++ r)).isSome = true :=
            (ih (lo - 1) (a ++ r)).mpr
              ⟨a, r, rfl, by simp at hlo; omega, by simp at hhi; omega,
                fun y hy => hall y (by simp [hy]), hk⟩
          cases hrec : matchRep p k (lo - 1) hi (a ++ r) with
          | some r0 => simp
          | none => rw [hrec] at h1; simp at h1

/-- Length-one lists are singletons. -/
theorem length_one_singleton (a : List Char) (h1 : 1 ≤ a.length) (h2 : a.length ≤ 1) :
    ∃ d, a = [d] := by
  match a, h1, h2 with
  | [d], _, _ => exact ⟨d, rfl⟩
  | [], h, _ => simp at h
  | _ :: _ :: _, _, h => simp at h

/-- The callsign pattern accepts exactly the texts of the specified shape. -/
theorem matchItems_callsignPattern (s : List Char) :
    (matchItems callsignPattern s).isSome = true ↔ CallsignShape s := by
  simp only [callsignPattern, matchItems, matchRep_isSome]
  constructor
  · rintro ⟨a, r1, rfl, ha1, ha3, haall, dl, r2, rfl, hd1, hd2, hdall, b, r3, rfl, -, hb3,
      hball, ll, r4, rfl, hl1, hl2, hlall, hend⟩
    obtain ⟨d, rfl⟩ := length_one_singleton dl hd1 hd2
    obtain ⟨l, rfl⟩ := length_one_singleton ll hl1 hl2
    have hr4 : r4 = [] := by
      cases r4 with
      | nil => rfl
      | cons x xs => simp at hend
    subst hr4
    exact ⟨a, d, b, l, by simp, ha1, ha3, haall, hdall d (by simp), hb3, hball,
      hlall l (by simp)⟩
  · rintro ⟨a, d, b, l, rfl, ha1, ha3, haall, hd, hb3, hball, hl⟩
    refine ⟨a, [d] ++ (b ++ ([l] ++ [])), by simp, ha1, ha3, haall, [d], b ++ ([l] ++ []), rfl,
      by simp, by simp, by simpa using hd, b, [l] ++ [], rfl, by simp, hb3, hball, [l], [], rfl,
      by simp, by simp, by simpa using hl, by simp⟩

/-- C1. `isValidCallsign s` is true exactly when the whole of `s` is 1 to 3
characters of `[A-Z0-9]`, one digit, 0 to 3 characters of `[A-Z0-9]` and one
final upper-case letter; it accepts "W1AW" and "JA1ABC" and rejects "1234",
the empty string and "ABCDEFGHIJK". -/
theorem isValidCallsign_iff_shape :
    (∀ s : String, isValidCallsign s = true ↔ CallsignShape s.toList) ∧
    isValidCallsign "W1AW" = true ∧ isValidCallsign "JA1ABC" = true ∧
    isValidCallsign "1234" = false ∧ isValidCallsign "" = false ∧
    isValidCallsign "ABCDEFGHIJK" = false := by
  refine ⟨fun s => matchItems_callsignPattern s.toList, ?_, ?_, ?_, ?_, ?_⟩ <;> decide

/-- With no entry containing the frequency the loop falls through to `'other'`. -/
theorem firstBand_none (f : ℚ) (t : List (String × ℚ × ℚ))
    (h : ∀ e ∈ t, ¬ InRange f e) : firstBand f t = "other" := by
  induction t with
  | nil => rfl
  | cons x t ih =>
    obtain ⟨b, lo, hi⟩ := x
    have hx : ¬ (f ≥ lo ∧ f ≤ hi) := h (b, lo, hi) (by simp)
    simp only [firstBand, if_neg hx]
    exact ih (fun e he => h e (by simp [he]))

/-- When all entries containing the frequency carry one label, the loop
returns the label of any entry containing it. -/
theorem firstBand_mem (f : ℚ) (t : List (String × ℚ × ℚ))
    (huniq : ∀ e1 ∈ t, ∀ e2 ∈ t, InRange f e1 → InRange f e2 → e1.1 = e2.1)
    (e : String × ℚ × ℚ) (he : e ∈ t) (hin : InRange f e) : firstBand f t = e.1 := by
  induction t with
  | nil => simp at he
  | cons x t ih =>
    obtain ⟨b, lo, hi⟩ := x
    by_cases hx : f ≥ lo ∧ f ≤ hi
    · simp only [firstBand, if_pos hx]
      exact huniq (b, lo, hi) (by simp) e he hx hin
    · simp only [firstBand, if_neg hx]
      have he2 : e ∈ t := by
        rcases List.mem_cons.mp he with rfl | h
        · exact absurd hin hx
        · exact h
      exact ih (fun e1 h1 e2 h2 => huniq e1 (by simp [h1]) e2 (by simp [h2])) he2

/-- The table is in ascending order: each range ends below the start of every
later one. -/
theorem bands_ascending : bands.Pairwise (fun e1 e2 => e1.2.2 < e2.2.1) := by
  simp only [bands, List.pairwise_cons, List.mem_cons, List.mem_singleton,
    forall_eq_or_imp, forall_eq, List.not_mem_nil, List.Pairwise.nil, and_true,
    IsEmpty.forall_iff, implies_true]
  norm_num

/-- The ranges of the band table are pairwise disjoint. -/
theorem bands_pairwise_disjoint :
    bands.Pairwise (fun e1 e2 => ∀ f : ℚ, ¬ (InRange f e1 ∧ InRange f e2)) :=
  bands_ascending.imp (fun {e1 e2} h f hf => by
    have h1 := hf.1.2
    have h2 := hf.2.1
    linarith)

/-- Every range of the band table is non-empty: low is at most high. -/
theorem bands_low_le_high : ∀ e ∈ bands, e.2.1 ≤ e.2.2 := by
  simp only [bands, List.mem_cons, List.mem_singleton, forall_eq_or_imp, forall_eq,
    List.not_mem_nil, IsEmpty.forall_iff, implies_true, and_true]
  norm_num

/-- The labels of the band table are distinct, and none is `'other'`. -/
theorem bands_labels : (bands.map (fun e => e.1)).Nodup ∧ ∀ e ∈ bands, e.1 ≠ "other" := by
  constructor
  · simp only [bands, List.map]
    decide
  · simp only [bands, List.mem_cons, List.mem_singleton, forall_eq_or_imp, forall_eq,
      List.not_mem_nil, IsEmpty.forall_iff, implies_true, and_true]
    decide

/-- At most one entry of the band table contains a given frequency. -/
theorem bands_unique (f : ℚ) (e1 : String × ℚ × ℚ) (h1 : e1 ∈ bands)
    (e2 : String × ℚ × ℚ) (h2 : e2 ∈ bands) (i1 : InRange f e1) (i2 : InRange f e2) :
    e1 = e2 := by
  by_contra hne
  have hsym : Symmetric (fun e1 e2 : String × ℚ × ℚ =>
      ∀ f : ℚ, ¬ (InRange f e1 ∧ InRange f e2)) :=
    fun a b h f hf => h f ⟨hf.2, hf.1⟩
  exact List.Pairwise.forall hsym bands_pairwise_disjoint h1 h2 hne f ⟨i1, i2⟩

/-- The loop returns a table label exactly for the entry containing the
frequency, and `'other'` exactly when there is none. -/
theorem getBandFromFrequency_spec (f : ℚ) :
    (∀ e ∈ bands, getBandFromFrequency f = e.1 ↔ InRange f e) ∧
    (getBandFromFrequency f = "other" ↔ ∀ e ∈ bands, ¬ InRange f e) := by
  have huniq : ∀ e1 ∈ bands, ∀ e2 ∈ bands, InRange f e1 → InRange f e2 → e1.1 = e2.1 :=
    fun e1 h1 e2 h2 i1 i2 => by rw [bands_unique f e1 h1 e2 h2 i1 i2]
  by_cases hex : ∃ e ∈ bands, InRange f e
  · obtain ⟨e0, h0, i0⟩ := hex
    have hval : getBandFromFrequency f = e0.1 := firstBand_mem f bands huniq e0 h0 i0
    constructor
    · intro e he
      constructor
      · intro h
        have hlab : e0.1 = e.1 := by rw [← hval, h]
        have : e0 = e := List.inj_on_of_nodup_map bands_labels.1 h0 he hlab
        exact this ▸ i0
      · intro hin
        rw [hval, bands_unique f e0 h0 e he i0 hin]
    · constructor
      · intro h
        exact absurd (hval.symm.trans h) (bands_labels.2 e0 h0)
      · intro h
        exact absurd i0 (h e0 h0)
  · have hnone : ∀ e ∈ bands, ¬ InRange f e := fun e he hin => hex ⟨e, he, hin⟩
    have hval : getBandFromFrequency f = "other" := firstBand_none f bands hnone
    constructor
    · intro e he
      constructor
      · intro h
        exact absurd (h.symm.trans hval) (bands_labels.2 e he)
      · intro hin
        exact absurd hin (hnone e he)
    · exact ⟨fun _ => hnone, fun _ => hval⟩

/-- C2. For every rational frequency, `getBandFromFrequency` returns the label
of a table entry exactly when the frequency lies within that entry's inclusive
bounds (so both bounds themselves return the label), and `'other'` exactly when
no entry of the 13-entry table contains it; 14200 and 14000 give `'20m'` and
999999 gives `'other'`. -/
theorem getBandFromFrequency_inclusive_ranges :
    bands.length = 13 ∧
    (∀ f : ℚ, ∀ e ∈ bands, getBandFromFrequency f = e.1 ↔ e.2.1 ≤ f ∧ f ≤ e.2.2) ∧
    (∀ e ∈ bands, getBandFromFrequency e.2.1 = e.1 ∧ getBandFromFrequency e.2.2 = e.1) ∧
    (∀ f : ℚ, getBandFromFrequency f = "other" ↔ ∀ e ∈ bands, ¬ (e.2.1 ≤ f ∧ f ≤ e.2.2)) ∧
    getBandFromFrequency 14200 = "20m" ∧ getBandFromFrequency 14000 = "20m" ∧
    getBandFromFrequency 999999 = "other" := by
  refine ⟨rfl, fun f => (getBandFromFrequency_spec f).1, ?_,
    fun f => (getBandFromFrequency_spec f).2, ?_, ?_, ?_⟩
  · intro e he
    exact ⟨((getBandFromFrequency_spec e.2.1).1 e he).mpr ⟨le_refl _, bands_low_le_high e he⟩,
      ((getBandFromFrequency_spec e.2.2).1 e he).mpr ⟨bands_low_le_high e he, le_refl _⟩⟩
  · exact ((getBandFromFrequency_spec 14200).1 ("20m", 14000, 14350)
      (by simp [bands])).mpr (by constructor <;> norm_num)
  · exact ((getBandFromFrequency_spec 14000).1 ("20m", 14000, 14350)
      (by simp [bands])).mpr (by constructor <;> norm_num)
  · refine (getBandFromFrequency_spec 999999).2.mpr ?_
    simp only [bands, List.mem_cons, List.mem_singleton, forall_eq_or_imp, forall_eq,
      List.not_mem_nil, IsEmpty.forall_iff, implies_true, and_true, InRange]
    norm_num

/-- C3. The 13 ranges of the band table are pairwise disjoint and each has
low at most high, so at most one entry contains a given frequency and the
first-match loop returns the same label over every permutation of the table. -/
theorem firstBand_perm_invariant :
    bands.length = 13 ∧
    bands.Pairwise (fun e1 e2 => ∀ f : ℚ, ¬ ((e1.2.1 ≤ f ∧ f ≤ e1.2.2) ∧ (e2.2.1 ≤ f ∧ f ≤ e2.2.2))) ∧
    (∀ e ∈ bands, e.2.1 ≤ e.2.2) ∧
    (∀ f : ℚ, ∀ e1 ∈ bands, ∀ e2 ∈ bands,
      (e1.2.1 ≤ f ∧ f ≤ e1.2.2) → (e2.2.1 ≤ f ∧ f ≤ e2.2.2) → e1 = e2) ∧
    (∀ t : List (String × ℚ × ℚ), t.Perm bands →
      ∀ f : ℚ, firstBand f t = getBandFromFrequency f) := by
  refine ⟨rfl, bands_pairwise_disjoint, bands_low_le_high,
    fun f e1 h1 e2 h2 => bands_unique f e1 h1 e2 h2, ?_⟩
  intro t ht f
  have huniq : ∀ e1 ∈ t, ∀ e2 ∈ t, InRange f e1 → InRange f e2 → e1.1 = e2.1 :=
    fun e1 h1 e2 h2 i1 i2 => by
      rw [bands_unique f e1 (ht.mem_iff.mp h1) e2 (ht.mem_iff.mp h2) i1 i2]
  by_cases hex : ∃ e ∈ bands, InRange f e
  · obtain ⟨e0, h0, i0⟩ := hex
    rw [firstBand_mem f t huniq e0 (ht.mem_iff.mpr h0) i0]
    exact (((getBandFromFrequency_spec f).1 e0 h0).mpr i0).symm
  · have hnone : ∀ e ∈ bands, ¬ InRange f e := fun e he hin => hex ⟨e, he, hin⟩
    rw [firstBand_none f t (fun e he => hnone e (ht.mem_iff.mp he))]
    exact ((getBandFromFrequency_spec f).2.mpr hnone).symm

/-! ### `DashboardPreferences` -/

/-- Rendering the properties of a freshly parsed object gives them back. -/
theorem definedProps_ownProps (props : List (String × Json)) :
    definedProps (ownProps props) = props := by
  induction props with
  | nil => rfl
  | cons x t ih =>
    obtain ⟨a, v⟩ := x
    simp only [ownProps, List.map, definedProps] at ih ⊢
    rw [ih]

/-- Assigning to `k` leaves the own property `k2` of the rendered object alone. -/
theorem lookupOwn_setOwn_ne (props : List (String × Json)) (k k2 : String)
    (value : Option Json) (h : k ≠ k2) :
    lookupOwn k2 (definedProps (setOwn k value (ownProps props))) = lookupOwn k2 props := by
  induction props with
  | nil =>
    cases value <;> simp [ownProps, setOwn, definedProps, lookupOwn, h]
  | cons x t ih =>
    obtain ⟨a, v⟩ := x
    have hcons : ownProps ((a, v) :: t) = (a, some v) :: ownProps t := rfl
    rw [hcons]
    by_cases hak : a = k
    · subst hak
      cases value <;> simp [setOwn, definedProps, lookupOwn, h, definedProps_ownProps]
    · simp only [setOwn, if_neg hak, definedProps, lookupOwn, ih]

/-- Assigning JSON data to `k` makes it the own property `k` of the rendered object. -/
theorem lookupOwn_setOwn_eq (props : List (String × Json)) (k : String) (j : Json) :
    lookupOwn k (definedProps (setOwn k (some j) (ownProps props))) = some j := by
  induction props with
  | nil => simp [ownProps, setOwn, definedProps, lookupOwn]
  | cons x t ih =>
    obtain ⟨a, v⟩ := x
    have hcons : ownProps ((a, v) :: t) = (a, some v) :: ownProps t := rfl
    rw [hcons]
    by_cases hak : a = k
    · simp [setOwn, hak, definedProps, lookupOwn]
    · simp only [setOwn, if_neg hak, definedProps, lookupOwn, ih]

/-- What `load` returns, case by case: the parsed value of well-formed text
when reading works, and `{}` otherwise. -/
theorem load_eq (st : Storage) :
    load st =
      if st.readFails then Parsed.object []
      else match st.slot with
        | some (SlotText.wellformed v) => v
        | _ => Parsed.object [] := by
  obtain ⟨slot, rf, wf⟩ := st
  cases rf
  · rcases slot with _ | _ | _ | v <;> simp [load, loadTry, getItem, truthy, jsonParse]
  · simp [load, loadTry, getItem]

/-- The own property `key` after writing and parsing back is the own property
before, written and parsed back. -/
theorem lookupOwn_renderProps (key : String) (props : List (String × Json)) :
    lookupOwn key (renderProps props) = (lookupOwn key props).map render := by
  induction props with
  | nil => rfl
  | cons x t ih =>
    obtain ⟨a, v⟩ := x
    by_cases hak : a = key
    · simp [renderProps, lookupOwn, hak]
    · simp [renderProps, lookupOwn, hak, ih]

/-- The store after a `save` on a mapping, when reading and writing work. -/
theorem load_save (st : Storage) (key : String) (value : Option Json)
    (props : List (String × Json)) (hl : load st = Parsed.object props)
    (hr : st.readFails = false) (hw : st.writeFails = false) :
    load (save st key value) = Parsed.object (renderProps
      (if key = "__proto__" ∧ (lookupOwn key props).isNone = true then props
       else definedProps (setOwn key value (ownProps props)))) := by
  by_cases hk : key = "__proto__" ∧ (lookupOwn key props).isNone = true
  · have hs : save st key value = { st with slot := some (jsonStringify (ownProps props)) } := by
      simp only [save, saveTry, hl, setProp, if_pos hk, setItem, hw]
      simp
    rw [hs, load_eq, if_pos hk]
    simp [hr, jsonStringify, definedProps_ownProps]
  · have hs : save st key value =
        { st with slot := some (jsonStringify (setOwn key value (ownProps props))) } := by
      simp only [save, saveTry, hl, setProp, if_neg hk, setItem, hw]
      simp
    rw [hs, load_eq, if_neg hk]
    simp [hr, jsonStringify]

/-- Without a working write, or on a store holding `null`, `save` changes nothing. -/
theorem save_noop (st : Storage) (key : String) (value : Option Json)
    (h : st.writeFails = true ∨ load st = Parsed.null) : save st key value = st := by
  rcases h with h | h
  · cases hsp : setProp (load st) key value <;> simp [save, saveTry, hsp, setItem, h]
  · simp [save, saveTry, h, setProp]

/-- The fault flags of the storage are never touched by `save`. -/
theorem save_flags (st : Storage) (key : String) (value : Option Json) :
    (save st key value).readFails = st.readFails ∧
    (save st key value).writeFails = st.writeFails := by
  cases hsp : setProp (load st) key value with
  | error e => simp [save, saveTry, hsp]
  | ok own =>
    cases hw : st.writeFails <;> simp [save, saveTry, hsp, setItem, hw]

/-- Nothing of the store is read by `get` but the own property under its key. -/
theorem get_congr (st1 st2 : Storage) (key : String) (d : JSValue)
    (p1 p2 : List (String × Json)) (h1 : load st1 = Parsed.object p1)
    (h2 : load st2 = Parsed.object p2) (h : lookupOwn key p1 = lookupOwn key p2) :
    get st1 key d = get st2 key d := by
  simp only [get, h1, h2, getProp, h]

/-- On a store holding a mapping, with reading and writing at work, saving
JSON data that `JSON.stringify` writes faithfully under a key other than
`__proto__` and getting that key returns the data. -/
theorem save_get_roundtrip (st : Storage) (key : String) (j : Json) (d : JSValue)
    (hmap : (load st).isMapping = true) (hr : st.readFails = false)
    (hw : st.writeFails = false) (hk : key ≠ "__proto__") (hj : render j = j) :
    get (save st key (some j)) key d = Except.ok (JSValue.json j) := by
  cases hl : load st with
  | null => rw [hl] at hmap; simp [Parsed.isMapping] at hmap
  | object props =>
    have h := load_save st key (some j) props hl hr hw
    rw [if_neg (fun hc => hk hc.1)] at h
    simp only [get, h, getProp, lookupOwn_renderProps, lookupOwn_setOwn_eq, Option.map_some',
      hj]

/-- A key that is an own property of the stored mapping is returned by `get`
with its stored value, whatever that value is (`false`, `0` and the empty
string included). -/
theorem get_present (st : Storage) (key : String) (d : JSValue)
    (props : List (String × Json)) (j : Json) (hl : load st = Parsed.object props)
    (hj : lookupOwn key props = some j) : get st key d = Except.ok (JSValue.json j) := by
  simp only [get, hl, getProp, hj]

/-- A key that is neither an own property of the stored mapping nor a property
name of `Object.prototype` makes `get` return the default, `null` when the
default is left out. -/
theorem get_absent (st : Storage) (key : String) (d : JSValue)
    (props : List (String × Json)) (hl : load st = Parsed.object props)
    (hj : lookupOwn key props = none) (hp : key ≠ "__proto__")
    (hf : key ∉ objectPrototypeFunctions) :
    get st key d = Except.ok (match d with
      | JSValue.undefined => JSValue.json Json.null
      | v => v) := by
  simp only [get, hl, getProp, hj, if_neg hp, if_neg hf]

/-- C4. The round trip fails for the key `__proto__`: on an empty store
(nothing in the slot, storage working) `save("__proto__", 42)` stores no
property, and `get("__proto__")` hands back `Object.prototype` instead of 42.
The example of the specification, `save("x", 42)` then `get("x")`, does
return 42. -/
theorem save_get_proto_key_lost :
    get (save ⟨none, false, false⟩ "__proto__" (some (Json.num 42))) "__proto__"
        JSValue.undefined = Except.ok JSValue.objectPrototype ∧
    load (save ⟨none, false, false⟩ "__proto__" (some (Json.num 42))) = Parsed.object [] ∧
    get (save ⟨none, false, false⟩ "x" (some (Json.num 42))) "x" JSValue.undefined =
      Except.ok (JSValue.json (Json.num 42)) :=
  ⟨rfl, rfl, rfl⟩

/-- C5. On an empty store `get("toString", "fallback")` returns the method
inherited from `Object.prototype` instead of the default, although the key was
never saved; `get("missing", "fallback")` returns the default, and stored
falsy values (`false`, `0`, the empty string) are returned as stored. -/
theorem get_inherited_key_not_default :
    get ⟨none, false, false⟩ "toString" (JSValue.json (Json.str "fallback")) =
      Except.ok (JSValue.builtinFunction "toString") ∧
    present ⟨none, false, false⟩ "toString" = false ∧
    get ⟨none, false, false⟩ "missing" (JSValue.json (Json.str "fallback")) =
      Except.ok (JSValue.json (Json.str "fallback")) ∧
    get ⟨some (SlotText.wellformed (Parsed.object
        [("a", Json.bool false), ("b", Json.num 0), ("c", Json.str "")])), false, false⟩
      "b" (JSValue.json (Json.str "fallback")) = Except.ok (JSValue.json (Json.num 0)) :=
  ⟨rfl, rfl, rfl, rfl⟩

/-- C6. With the text `null` in the slot `load` returns `null`, which is not a
mapping; it returns `{}` for an absent slot, for the empty string and for text
that does not parse. -/
theorem load_null_text_not_mapping :
    load ⟨some (SlotText.wellformed Parsed.null), false, false⟩ = Parsed.null ∧
    (load ⟨some (SlotText.wellformed Parsed.null), false, false⟩).isMapping = false ∧
    load ⟨none, false, false⟩ = Parsed.object [] ∧
    load ⟨some SlotText.empty, false, false⟩ = Parsed.object [] ∧
    load ⟨some SlotText.corrupt, false, false⟩ = Parsed.object [] :=
  ⟨rfl, rfl, rfl, rfl, rfl⟩

/-- C7. With the text `null` in the slot `get` throws a `TypeError` to its
caller for every key and default, while `save` swallows the same error and
leaves the storage as it was. -/
theorem get_throws_on_null_text (key : String) (d : JSValue) (value : Option Json) :
    get ⟨some (SlotText.wellformed Parsed.null), false, false⟩ key d =
      Except.error JSError.typeError ∧
    save ⟨some (SlotText.wellformed Parsed.null), false, false⟩ key value =
      ⟨some (SlotText.wellformed Parsed.null), false, false⟩ :=
  ⟨rfl, rfl⟩

/-- Clearing a read fault that is not there changes nothing. -/
theorem clear_read (st : Storage) (h : st.readFails = false) :
    { st with readFails := false } = st := by
  obtain ⟨slot, rf, wf⟩ := st
  simp only at h
  rw [h]

/-- Counterexample to C8 as stated. `save` writes every key of the store
anew: a stored `Infinity` (slot text `{"a":1e999}`) is read as `Infinity`
before `save("x", 1)` and as `null` after it. When reading the slot fails
inside `save`, the store `{"a":1}` is overwritten by `{"x":2}`, and a read that
works finds `a` before the save and not after it. -/
theorem save_rewrites_other_keys :
    (load ⟨some (SlotText.wellformed (Parsed.object [("a", Json.num JSNumber.posInf)])),
      false, false⟩).isMapping = true ∧
    get ⟨some (SlotText.wellformed (Parsed.object [("a", Json.num JSNumber.posInf)])),
        false, false⟩ "a" JSValue.undefined =
      Except.ok (JSValue.json (Json.num JSNumber.posInf)) ∧
    get (save ⟨some (SlotText.wellformed (Parsed.object [("a", Json.num JSNumber.posInf)])),
        false, false⟩ "x" (some (Json.num 1))) "a" JSValue.undefined =
      Except.ok (JSValue.json Json.null) ∧
    get { (⟨some (SlotText.wellformed (Parsed.object [("a", Json.num 1)])), true, false⟩ :
        Storage) with readFails := false } "a" JSValue.undefined =
      Except.ok (JSValue.json (Json.num 1)) ∧
    get { save ⟨some (SlotText.wellformed (Parsed.object [("a", Json.num 1)])), true, false⟩
        "x" (some (Json.num 2)) with readFails := false } "a" JSValue.undefined =
      Except.ok (JSValue.json Json.null) :=
  ⟨rfl, rfl, rfl, rfl, rfl⟩

/-- C8, amended. On a store holding a mapping, when the read of the slot
inside `save` works or its write fails, and the value stored under `k2` (if
any) is one that `JSON.stringify` writes faithfully, `save(k, value)` leaves
the key `k2` other than `k` as it was: `get(k2, d)` returns the same result
after the save as before, also for a reader whose read works, and `k2` is
present afterwards exactly when it was before. -/
theorem save_frame (st : Storage) (k k2 : String) (value : Option Json) (d : JSValue)
    (hmap : (load st).isMapping = true)
    (hread : st.readFails = false ∨ st.writeFails = true)
    (hstable : ∀ props j, load st = Parsed.object props → lookupOwn k2 props = some j →
      render j = j)
    (hne : k ≠ k2) :
    get (save st k value) k2 d = get st k2 d ∧
    present (save st k value) k2 = present st k2 ∧
    get { save st k value with readFails := false } k2 d =
      get { st with readFails := false } k2 d := by
  rcases Bool.eq_false_or_eq_true st.writeFails with hw | hw
  · rw [save_noop st k value (Or.inl hw)]
    exact ⟨rfl, rfl, rfl⟩
  · have hr : st.readFails = false := by
      rcases hread with h | h
      · exact h
      · rw [hw] at h; exact Bool.noConfusion h
    cases hl : load st with
    | null => rw [hl] at hmap; simp [Parsed.isMapping] at hmap
    | object props =>
      have h2 := load_save st k value props hl hr hw
      have hlk : lookupOwn k2 (renderProps
          (if k = "__proto__" ∧ (lookupOwn k props).isNone = true then props
           else definedProps (setOwn k value (ownProps props)))) = lookupOwn k2 props := by
        have hbase : lookupOwn k2
            (if k = "__proto__" ∧ (lookupOwn k props).isNone = true then props
             else definedProps (setOwn k value (ownProps props))) = lookupOwn k2 props := by
          split
          · rfl
          · exact lookupOwn_setOwn_ne props k k2 value hne
        rw [lookupOwn_renderProps, hbase]
        cases hj : lookupOwn k2 props with
        | none => rfl
        | some j => simp only [Option.map_some', hstable props j hl hj]
      have hget : get (save st k value) k2 d = get st k2 d :=
        get_congr _ _ k2 d _ props h2 hl hlk
      refine ⟨hget, by simp only [present, h2, hl, hlk], ?_⟩
      rw [clear_read st hr, clear_read _ ((save_flags st k value).1.trans hr)]
      exact hget

/-- Witness for `save_frame`: saving `x` in a store that holds `theme`. -/
theorem save_frame_witness :
    (load ⟨some (SlotText.wellformed (Parsed.object [("theme", Json.str "dark")])),
      false, false⟩).isMapping = true ∧ "x" ≠ "theme" ∧
    get (save ⟨some (SlotText.wellformed (Parsed.object [("theme", Json.str "dark")])),
        false, false⟩ "x" (some (Json.num 42))) "theme" JSValue.undefined =
      Except.ok (JSValue.json (Json.str "dark")) :=
  ⟨rfl, by decide,
    (save_frame ⟨some (SlotText.wellformed (Parsed.object [("theme", Json.str "dark")])),
      false, false⟩ "x" "theme" (some (Json.num 42)) JSValue.undefined rfl (Or.inl rfl)
      (fun props j hp hj => by
        have hprops : props = [("theme", Json.str "dark")] := (Parsed.object.inj hp).symm
        subst hprops
        have hjv : j = Json.str "dark" := (Option.some.inj hj).symm
        subst hjv
        rfl)
      (by decide)).1.trans rfl⟩

/-! ### `SpotExporter` -/

/-- Joining a non-empty array with a separator puts the separator before
every element after the first. -/
theorem join_cons (sep x : String) (xs : List String) :
    join sep (x :: xs) = xs.foldl (fun acc y => acc ++ sep ++ y) x := by
  induction xs generalizing x with
  | nil => rfl
  | cons y ys ih =>
    have h : ∀ (l : List String) (a b : String),
        l.foldl (fun acc z => acc ++ sep ++ z) (a ++ b) =
          a ++ l.foldl (fun acc z => acc ++ sep ++ z) b := by
      intro l
      induction l with
      | nil => intro a b; rfl
      | cons z zs ihz =>
        intro a b
        simp only [List.foldl_cons]
        rw [String.append_assoc a b sep, String.append_assoc a (b ++ sep) z]
        exact ihz a (b ++ sep ++ z)
    simp only [join, List.foldl_cons]
    rw [ih y, String.append_assoc x sep y, h]
    rw [String.append_assoc]
    congr 1
    exact (h ys sep y).symm

/-- The cells of a spot, quoted and joined, are the row of the specification. -/
theorem join_cells (s : Spot) :
    join "," ([s.formatted_time, s.formatted_freq, s.callsign, s.spotter, s.comment,
      s.band].map (fun cell => "\"" ++ cell ++ "\"")) = csvRow s := by
  simp only [List.map, join, csvRow, quoted, String.append_assoc]

/-- The text `exportToCSV` produces is the one the specification describes. -/
theorem exportToCSV_eq (spots : List Spot) : exportToCSV spots = csvText spots := by
  have hh : join "," headers = headerRow := by decide
  simp only [exportToCSV, csvText, join_cons, hh, List.map_map, List.foldl_map]
  congr 1
  funext acc s
  exact congrArg (fun r => acc ++ "\n" ++ r) (join_cells s)

/-- Text with a quote appended ends in that quote. -/
theorem toList_append_quote_last (x : String) : (x ++ "\"").toList.getLast? = some '"' := by
  have h : (x ++ "\"").toList = x.toList ++ ['"'] := by
    simp [String.toList]
  rw [h, List.getLast?_append]
  rfl

/-- A row ends with the closing quote of its last field. -/
theorem csvRow_last (acc : String) (s : Spot) :
    (acc ++ "\n" ++ csvRow s).toList.getLast? = some '"' := by
  have h : acc ++ "\n" ++ csvRow s =
      (acc ++ "\n" ++ (quoted s.formatted_time ++ "," ++ quoted s.formatted_freq ++ "," ++
        quoted s.callsign ++ "," ++ quoted s.spotter ++ "," ++ quoted s.comment ++ "," ++
        ("\"" ++ s.band))) ++ "\"" := by
    simp only [csvRow, quoted, String.append_assoc]
  rw [h]
  exact toList_append_quote_last _

/-- Appending rows keeps a closing quote at the end of the text. -/
theorem csvRows_last (rest : List Spot) (acc : String)
    (h : acc.toList.getLast? = some '"') :
    (rest.foldl (fun acc s => acc ++ "\n" ++ csvRow s) acc).toList.getLast? = some '"' := by
  induction rest generalizing acc with
  | nil => exact h
  | cons s t ih => exact ih _ (csvRow_last acc s)

/-- C9. For every list of spots `exportToCSV` is the fixed header row followed,
for each spot in input order, by a newline and the spot's six fields, each
between double quotes and separated by commas; the text never ends in a
newline, the empty list gives the header alone and the example spot gives
exactly two lines. -/
theorem exportToCSV_header_then_rows :
    join "," headers = "Time,Frequency,Callsign,Spotter,Comment,Band" ∧
    (∀ spots : List Spot, exportToCSV spots =
      spots.foldl (fun acc s => acc ++ "\n" ++
        ("\"" ++ s.formatted_time ++ "\"" ++ "," ++ ("\"" ++ s.formatted_freq ++ "\"") ++ "," ++
         ("\"" ++ s.callsign ++ "\"") ++ "," ++ ("\"" ++ s.spotter ++ "\"") ++ "," ++
         ("\"" ++ s.comment ++ "\"") ++ "," ++ ("\"" ++ s.band ++ "\"")))
        "Time,Frequency,Callsign,Spotter,Comment,Band") ∧
    (∀ spots : List Spot, (exportToCSV spots).toList.getLast? ≠ some '\n') ∧
    exportToCSV [] = "Time,Frequency,Callsign,Spotter,Comment,Band" ∧
    exportToCSV [exampleSpot] =
      "Time,Frequency,Callsign,Spotter,Comment,Band\n\"12:00\",\"14.200\",\"W1AW\",\"K1ABC\",\"cq\",\"20m\"" ∧
    (exportToCSV [exampleSpot]).toList.count '\n' = 1 := by
  refine ⟨by decide, fun spots => exportToCSV_eq spots, ?_, by decide, by decide, by decide⟩
  intro spots
  rw [exportToCSV_eq]
  cases spots with
  | nil => decide
  | cons s t =>
    have h := csvRows_last t _ (csvRow_last headerRow s)
    simp only [csvText, List.foldl_cons]
    rw [h]
    decide

/-- C10. `exportToCSV` escapes nothing: a field is emitted as it is between
its two quotes, so a quote inside a field ends the cell early and two different
spot lists, one with callsign `A","B` and spotter `C`, the other with callsign
`A` and spotter `B","C`, give the same text. -/
theorem exportToCSV_unescaped_collision :
    (∀ s : Spot, exportToCSV [s] =
      "Time,Frequency,Callsign,Spotter,Comment,Band" ++ "\n" ++
        ("\"" ++ s.formatted_time ++ "\"" ++ "," ++ ("\"" ++ s.formatted_freq ++ "\"") ++ "," ++
         ("\"" ++ s.callsign ++ "\"") ++ "," ++ ("\"" ++ s.spotter ++ "\"") ++ "," ++
         ("\"" ++ s.comment ++ "\"") ++ "," ++ ("\"" ++ s.band ++ "\""))) ∧
    ([{ exampleSpot with callsign := "A\",\"B", spotter := "C" }] ≠
      [{ exampleSpot with callsign := "A", spotter := "B\",\"C" }]) ∧
    exportToCSV [{ exampleSpot with callsign := "A\",\"B", spotter := "C" }] =
      exportToCSV [{ exampleSpot with callsign := "A", spotter := "B\",\"C" }] ∧
    exportToCSV [{ exampleSpot with callsign := "A\",\"B", spotter := "C" }] =
      "Time,Frequency,Callsign,Spotter,Comment,Band\n\"12:00\",\"14.200\",\"A\",\"B\",\"C\",\"cq\",\"20m\"" := by
  refine ⟨fun s => exportToCSV_eq [s], by decide, by decide, by decide⟩

/-! ### `CallsignLookup.extractPrefix` and `stripSSID` -/

/-- The result of `matchRep` comes from the longest admissible run of the
class after which the continuation succeeds. -/
theorem matchRep_some (p : Char → Bool) (k : List Char → Option (List Char))
    (hi lo : Nat) (s r : List Char) (h : matchRep p k lo hi s = some r) :
    ∃ a rest, s = a ++ rest ∧ lo ≤ a.length ∧ a.length ≤ hi ∧
      (∀ c ∈ a, p c = true) ∧ k rest = some r ∧
      ∀ a2 rest2, s = a2 ++ rest2 → a.length < a2.length → a2.length ≤ hi →
        (∀ c ∈ a2, p c = true) → k rest2 = none := by
  induction hi generalizing lo s with
  | zero =>
    simp only [matchRep] at h
    split at h
    · next h0 =>
      exact ⟨[], s, by simp, by simp [h0], by simp, by simp, h,
        fun a2 _ _ hlt hle _ => by simp at hlt; omega⟩
    · simp at h
  | succ hi ih =>
    cases s with
    | nil =>
      simp only [matchRep] at h
      split at h
      · next h0 =>
        refine ⟨[], [], by simp, by simp [h0], by simp, by simp, h, ?_⟩
        intro a2 rest2 hs hlt _ _
        have hs2 := hs.symm
        rw [List.append_eq_nil] at hs2
        rw [hs2.1] at hlt
        simp at hlt
      · simp at h
    | cons c t =>
      simp only [matchRep] at h
      by_cases hp : p c = true
      · rw [if_pos hp] at h
        cases hrec : matchRep p k (lo - 1) hi t with
        | some r0 =>
          rw [hrec] at h
          simp only [Option.some.injEq] at h
          subst h
          obtain ⟨a, rest, rfl, hlo, hhi, hall, hk, hmax⟩ := ih (lo - 1) t hrec
          refine ⟨c :: a, rest, by simp, by simp; omega, by simp; omega, ?_, hk, ?_⟩
          · intro x hx
            rcases List.mem_cons.mp hx with rfl | hx
            · exact hp
            · exact hall x hx
          · intro a2 rest2 hs hlt hle hall2
            cases a2 with
            | nil => simp at hlt
            | cons x a3 =>
              simp only [List.cons_append, List.cons.injEq] at hs
              exact hmax a3 rest2 hs.2 (by simp at hlt; omega) (by simp at hle; omega)
                (fun y hy => hall2 y (by simp [hy]))
        | none =>
          rw [hrec] at h
          simp only at h
          split at h
          · next h0 =>
            refine ⟨[], c :: t, by simp, by simp [h0], by simp, by simp, h, ?_⟩
            intro a2 rest2 hs _ hle hall2
            cases a2 with
            | nil => simp at *
            | cons x a3 =>
              simp only [List.cons_append, List.cons.injEq] at hs
              by_contra hne
              have hsome : (k rest2).isSome = true := by
                cases hk2 : k rest2 with
                | none => exact absurd hk2 hne
                | some v => rfl
              have := (matchRep_isSome p k hi (lo - 1) t).mpr
                ⟨a3, rest2, hs.2, by omega, by simp at hle; omega,
                  fun y hy => hall2 y (by simp [hy]), hsome⟩
              rw [hrec] at this
              simp at this
          · simp at h
      · rw [if_neg hp] at h
        split at h
        · next h0 =>
          refine ⟨[], c :: t, by simp, by simp [h0], by simp, by simp, h, ?_⟩
          intro a2 rest2 hs hlt _ hall2
          cases a2 with
          | nil => simp at hlt
          | cons x a3 =>
            simp only [List.cons_append, List.cons.injEq] at hs
            exact absurd (hall2 x (by simp)) (by rw [← hs.1]; exact hp)
        · simp at h

/-- The `[0-9]` item at the end of the prefix pattern takes one digit and
leaves the rest. -/
theorem digitStep (rest : List Char) :
    matchRep isDigit09 (fun x => some x) 1 1 rest =
      match rest with
      | d :: r => if isDigit09 d = true then some r else none
      | [] => none := by
  cases rest with
  | nil => simp [matchRep]
  | cons d r =>
    by_cases hd : isDigit09 d = true
    · cases r <;> simp [matchRep, hd]
    · simp [matchRep, hd]

/-- A match of the prefix pattern consumed the longest leading run of the
specified shape. -/
theorem matchItems_prefix_some (s r : List Char) (h : matchItems prefixPattern s = some r) :
    ∃ a d, s = a ++ d :: r ∧ 1 ≤ a.length ∧ a.length ≤ 3 ∧ (∀ c ∈ a, isAlnum c = true) ∧
      isDigit09 d = true ∧
      ∀ p rest, s = p ++ rest → PrefixShape p → p.length ≤ a.length + 1 := by
  simp only [prefixPattern, matchItems] at h
  obtain ⟨a, rest, hs, hlo, hhi, hall, hk, hmax⟩ := matchRep_some _ _ 3 1 s r h
  rw [digitStep] at hk
  cases rest with
  | nil => simp at hk
  | cons d r2 =>
    by_cases hd : isDigit09 d = true
    · simp only [hd, if_true, Option.some.injEq] at hk
      subst hk
      refine ⟨a, d, hs, hlo, hhi, hall, hd, ?_⟩
      intro p rest hp hshape
      obtain ⟨a2, d2, rfl, -, h3, hall2, hd2⟩ := hshape
      by_contra hlt
      have hnone := hmax a2 (d2 :: rest) (by rw [hp]; simp) (by simp at hlt; omega) h3 hall2
      rw [digitStep] at hnone
      simp [hd2] at hnone
    · simp [hd] at hk

/-- Without a match of the prefix pattern no leading run has the specified
shape. -/
theorem matchItems_prefix_none (s : List Char) (h : matchItems prefixPattern s = none) :
    ¬ ∃ p rest, s = p ++ rest ∧ PrefixShape p := by
  rintro ⟨p, rest, rfl, a, d, rfl, h1, h3, hall, hd⟩
  have hsome : (matchItems prefixPattern (a ++ [d] ++ rest)).isSome = true := by
    simp only [prefixPattern, matchItems]
    refine (matchRep_isSome _ _ 3 1 _).mpr ⟨a, d :: rest, by simp, h1, h3, hall, ?_⟩
    rw [digitStep]
    simp [hd]
  rw [h] at hsome
  simp at hsome

/-- What `extractPrefix` returns, in terms of the matcher's result. -/
theorem extractPrefix_some (s : String) (a : List Char) (d : Char) (r : List Char)
    (hs : s.toList = a ++ d :: r) (h : matchItems prefixPattern s.toList = some r) :
    (extractPrefix s).toList = a ++ [d] := by
  unfold extractPrefix
  rw [h, hs]
  show List.take ((a ++ d :: r).length - r.length) (a ++ d :: r) = a ++ [d]
  have hl : (a ++ d :: r).length - r.length = (a ++ [d]).length := by
    simp
    omega
  have hsplit : a ++ d :: r = (a ++ [d]) ++ r := by simp
  rw [hl, hsplit]
  exact List.take_left _ _

/-- C11. For every string, `extractPrefix` returns the longest leading run made
of 1 to 3 characters of `[A-Z0-9]` followed by a digit when the string has such
a leading run, and the empty string when it has none; `extractPrefix("JA1ABC")`
is `"JA1"` and `extractPrefix("NOPREFIX")` is `""`. -/
theorem extractPrefix_longest_leading_run :
    (∀ s : String,
      ((∃ p, p <+: s.toList ∧ PrefixShape p) →
        (extractPrefix s).toList <+: s.toList ∧ PrefixShape (extractPrefix s).toList ∧
        ∀ p, p <+: s.toList → PrefixShape p → p.length ≤ (extractPrefix s).toList.length) ∧
      ((¬ ∃ p, p <+: s.toList ∧ PrefixShape p) → extractPrefix s = "")) ∧
    extractPrefix "JA1ABC" = "JA1" ∧ extractPrefix "NOPREFIX" = "" ∧
    extractPrefix "1234" = "1234" ∧ extractPrefix "W1AW" = "W1" := by
  refine ⟨fun s => ?_, by decide, by decide, by decide, by decide⟩
  cases h : matchItems prefixPattern s.toList with
  | none =>
    have hno := matchItems_prefix_none s.toList h
    constructor
    · rintro ⟨p, ⟨rest, hp⟩, hshape⟩
      exact absurd ⟨p, rest, hp.symm, hshape⟩ hno
    · intro _
      simp only [extractPrefix, h]
  | some r =>
    obtain ⟨a, d, hs, h1, h3, hall, hd, hmax⟩ := matchItems_prefix_some s.toList r h
    have hval := extractPrefix_some s a d r hs h
    constructor
    · intro _
      refine ⟨⟨r, by rw [hval, hs]; simp⟩, by rw [hval]; exact ⟨a, d, rfl, h1, h3, hall, hd⟩, ?_⟩
      rintro p ⟨rest, hp⟩ hshape
      rw [hval]
      simpa using hmax p rest hp.symm hshape
    · intro hno
      exact absurd ⟨a ++ [d], ⟨r, by rw [hs]; simp⟩, a, d, rfl, h1, h3, hall, hd⟩ hno

/-- Element 0 of the split: a separator-free leading part of the input that is
followed by nothing or by a separator. -/
theorem splitClass_fst (p : Char → Bool) (l : List Char) :
    ∃ rest, l = (splitClass p l).1 ++ rest ∧ (∀ c ∈ (splitClass p l).1, p c = false) ∧
      (rest = [] ∨ ∃ c r, rest = c :: r ∧ p c = true) := by
  induction l with
  | nil => exact ⟨[], by simp [splitClass], by simp [splitClass], Or.inl rfl⟩
  | cons c t ih =>
    by_cases hp : p c = true
    · exact ⟨c :: t, by simp [splitClass, hp], by simp [splitClass, hp],
        Or.inr ⟨c, t, rfl, hp⟩⟩
    · obtain ⟨rest, h1, h2, h3⟩ := ih
      refine ⟨rest, ?_, ?_, h3⟩
      · simp only [splitClass, if_neg hp, List.cons_append]
        rw [← h1]
      · simp only [splitClass, if_neg hp]
        intro x hx
        rcases List.mem_cons.mp hx with rfl | hx
        · simpa using hp
        · exact h2 x hx

/-- Splitting text without a separator gives the text itself as element 0. -/
theorem splitClass_free (p : Char → Bool) (l : List Char) (h : ∀ c ∈ l, p c = false) :
    (splitClass p l).1 = l := by
  induction l with
  | nil => rfl
  | cons c t ih =>
    have hc : ¬ p c = true := by simp [h c (by simp)]
    simp only [splitClass, if_neg hc]
    rw [ih (fun x hx => h x (by simp [hx]))]

/-- Being outside the class `[-\/]` is being neither `-` nor `/`. -/
theorem isSeparator_false (c : Char) : isSeparator c = false ↔ c ≠ '-' ∧ c ≠ '/' := by
  simp [isSeparator]

/-- C12. For every string, `stripSSID` returns the part of the string before its
first `-` or `/`: a leading part free of both characters that is followed by
one of them or by nothing. It is the whole string when the string has neither
character and the empty string when the string starts with one; `"W1AW-10"`,
`"W1AW/P"` and `"W1AW"` all give `"W1AW"`. -/
theorem stripSSID_before_first_separator :
    (∀ s : String, ∃ rest, s.toList = (stripSSID s).toList ++ rest ∧
      (∀ c ∈ (stripSSID s).toList, c ≠ '-' ∧ c ≠ '/') ∧
      (rest = [] ∨ ∃ c r, rest = c :: r ∧ (c = '-' ∨ c = '/'))) ∧
    (∀ s : String, (∀ c ∈ s.toList, c ≠ '-' ∧ c ≠ '/') → stripSSID s = s) ∧
    (∀ (s : String) (c : Char) (r : List Char), s.toList = c :: r → (c = '-' ∨ c = '/') →
      stripSSID s = "") ∧
    stripSSID "W1AW-10" = "W1AW" ∧ stripSSID "W1AW/P" = "W1AW" ∧ stripSSID "W1AW" = "W1AW" ∧
    stripSSID "" = "" ∧ stripSSID "A/B-C" = "A" := by
  refine ⟨fun s => ?_, fun s h => ?_, fun s c r hs hc => ?_, by decide, by decide, by decide,
    by decide, by decide⟩
  · obtain ⟨rest, h1, h2, h3⟩ := splitClass_fst isSeparator s.toList
    refine ⟨rest, h1, fun c hc => (isSeparator_false c).mp (h2 c hc), ?_⟩
    rcases h3 with h3 | ⟨c, r, hr, hc⟩
    · exact Or.inl h3
    · exact Or.inr ⟨c, r, hr, by simpa [isSeparator] using hc⟩
  · have := splitClass_free isSeparator s.toList (fun c hc => (isSeparator_false c).mpr (h c hc))
    simp only [stripSSID, this]
    rfl
  · have hsep : isSeparator c = true := by simpa [isSeparator] using hc
    simp only [stripSSID, hs, splitClass, if_pos hsep]

/-- The characters of the classes `[A-Z0-9]` are not separators. -/
theorem isSeparator_of_isAlnum (c : Char) (h : isAlnum c = true) : isSeparator c = false := by
  rw [isSeparator_false]
  constructor
  · rintro rfl
    revert h
    decide
  · rintro rfl
    revert h
    decide

/-- C19. For every string, `stripSSID` returns a leading part of the string
that contains neither `-` nor `/`, and applying it twice is applying it once;
on a valid callsign it returns the callsign unchanged. -/
theorem stripSSID_idempotent :
    (∀ s : String, (stripSSID s).toList <+: s.toList ∧
      (∀ c ∈ (stripSSID s).toList, c ≠ '-' ∧ c ≠ '/') ∧
      stripSSID (stripSSID s) = stripSSID s) ∧
    (∀ s : String, isValidCallsign s = true → stripSSID s = s) ∧
    stripSSID (stripSSID "W1AW-10/P") = "W1AW" ∧ isValidCallsign "W1AW" = true := by
  refine ⟨fun s => ?_, fun s h => ?_, by decide, by decide⟩
  · obtain ⟨rest, h1, h2, -⟩ := splitClass_fst isSeparator s.toList
    refine ⟨⟨rest, h1.symm⟩, fun c hc => (isSeparator_false c).mp (h2 c hc), ?_⟩
    have := splitClass_free isSeparator (stripSSID s).toList h2
    show String.mk (splitClass isSeparator (stripSSID s).toList).1 = stripSSID s
    rw [this]
    rfl
  · obtain ⟨a, d, b, l, hs, -, -, ha, hd, -, hb, hl⟩ := (matchItems_callsignPattern s.toList).mp h
    have hfree : ∀ c ∈ s.toList, isSeparator c = false := by
      intro c hc
      rw [hs] at hc
      simp only [List.mem_append, List.mem_cons, List.mem_singleton, List.not_mem_nil,
        or_false] at hc
      apply isSeparator_of_isAlnum
      rcases hc with hc | rfl | hc | rfl
      · exact ha c hc
      · simp [isAlnum, hd]
      · exact hb c hc
      · simp [isAlnum, hl]
    have := splitClass_free isSeparator s.toList hfree
    simp only [stripSSID, this]
    rfl

/-- No character is both a digit and an upper-case letter. -/
theorem not_digit_of_upper (c : Char) (h : isUpperAZ c = true) : isDigit09 c = false := by
  simp only [isUpperAZ, isDigit09, Bool.and_eq_true, decide_eq_true_eq] at h ⊢
  simp only [Bool.and_eq_false_iff, decide_eq_false_iff_not]
  omega

/-- C17. On every valid callsign `extractPrefix` returns a non-empty text of
length 2 to 4 that ends in a digit and is a proper prefix of the callsign,
strictly shorter than it; a valid callsign has length 3 to 8. -/
theorem extractPrefix_of_valid (s : String) (h : isValidCallsign s = true) :
    extractPrefix s ≠ "" ∧
    (∃ d, (extractPrefix s).toList.getLast? = some d ∧ isDigit09 d = true) ∧
    2 ≤ (extractPrefix s).length ∧ (extractPrefix s).length ≤ 4 ∧
    (extractPrefix s).toList <+: s.toList ∧ (extractPrefix s).length < s.length ∧
    3 ≤ s.length ∧ s.length ≤ 8 := by
  obtain ⟨a, d, b, l, hs, ha1, ha3, ha, hd, hb3, hb, hl⟩ :=
    (matchItems_callsignPattern s.toList).mp h
  have hlen : s.length = a.length + b.length + 2 := by
    show s.toList.length = _
    rw [hs]
    simp
    omega
  cases hm : matchItems prefixPattern s.toList with
  | none =>
    exact absurd ⟨a ++ [d], b ++ [l], by rw [hs]; simp, a, d, rfl, ha1, ha3, ha, hd⟩
      (matchItems_prefix_none s.toList hm)
  | some r =>
    obtain ⟨a2, d2, hs2, h1, h3, -, hd2, -⟩ := matchItems_prefix_some s.toList r hm
    have hval := extractPrefix_some s a2 d2 r hs2 hm
    have hplen : (extractPrefix s).length = a2.length + 1 := by
      show (extractPrefix s).toList.length = _
      rw [hval]
      simp
    have hr : r ≠ [] := by
      rintro rfl
      have heq : (a ++ d :: b) ++ [l] = a2 ++ [d2] := by
        rw [← hs2, hs]
        simp
      have hld : l = d2 := by
        have := (List.append_inj' heq rfl).2
        simpa using this
      rw [← hld, not_digit_of_upper l hl] at hd2
      exact Bool.noConfusion hd2
    have hslen : s.length = a2.length + 1 + r.length := by
      show s.toList.length = _
      rw [hs2]
      simp
      omega
    have hrpos : 0 < r.length := List.length_pos.mpr hr
    refine ⟨?_, ⟨d2, by rw [hval]; simp, hd2⟩, by omega, by omega,
      ⟨r, by rw [hval, hs2]; simp⟩, by omega, by omega, by omega⟩
    intro hempty
    rw [hempty] at hplen
    simp at hplen

/-- Witness for `extractPrefix_of_valid`: the callsign `W1AW`. -/
theorem extractPrefix_of_valid_witness :
    isValidCallsign "W1AW" = true ∧ extractPrefix "W1AW" = "W1" ∧
    (extractPrefix "W1AW").length < ("W1AW" : String).length :=
  ⟨by decide, by decide, (extractPrefix_of_valid "W1AW" (by decide)).2.2.2.2.2.1⟩

/-! ### `SpotExporter.exportToCSV` on quote-free fields -/

/-- The characters of a row, field by field. -/
theorem csvRow_toList (s : Spot) (rest : List Char) :
    (csvRow s).toList ++ rest =
      '"' :: (s.formatted_time.toList ++ '"' :: ',' :: '"' :: (s.formatted_freq.toList ++
        '"' :: ',' :: '"' :: (s.callsign.toList ++ '"' :: ',' :: '"' :: (s.spotter.toList ++
        '"' :: ',' :: '"' :: (s.comment.toList ++ '"' :: ',' :: '"' :: (s.band.toList ++
        '"' :: rest)))))) := by
  simp [csvRow, quoted, String.toList]

/-- The characters of the text built row by row. -/
theorem foldl_rows_toList (xs : List Spot) (acc : String) :
    (xs.foldl (fun acc s => acc ++ "\n" ++ csvRow s) acc).toList = acc.toList ++ rowsText xs := by
  induction xs generalizing acc with
  | nil => simp [rowsText]
  | cons s t ih =>
    simp only [List.foldl_cons, ih, rowsText]
    simp [String.toList]

/-- Two quote-free texts each followed by a quote: equal wholes have equal
texts and equal remainders. -/
theorem cancel_quoted (x y r1 r2 : List Char) (hx : '"' ∉ x) (hy : '"' ∉ y)
    (h : x ++ '"' :: r1 = y ++ '"' :: r2) : x = y ∧ r1 = r2 := by
  induction x generalizing y with
  | nil =>
    cases y with
    | nil => simpa using h
    | cons c y =>
      simp only [List.nil_append, List.cons_append, List.cons.injEq] at h
      exact absurd (by simp [← h.1]) hy
  | cons c x ih =>
    cases y with
    | nil =>
      simp only [List.nil_append, List.cons_append, List.cons.injEq] at h
      exact absurd (by simp [h.1]) hx
    | cons c2 y =>
      simp only [List.cons_append, List.cons.injEq] at h
      obtain ⟨h1, h2⟩ := ih y (fun hc => hx (by simp [hc])) (fun hc => hy (by simp [hc])) h.2
      exact ⟨by rw [h.1, h1], h2⟩

/-- The rows of quote-free spots determine the spots. -/
theorem rowsText_inj (xs ys : List Spot) (hx : ∀ s ∈ xs, QuoteFree s)
    (hy : ∀ s ∈ ys, QuoteFree s) (h : rowsText xs = rowsText ys) : xs = ys := by
  induction xs generalizing ys with
  | nil =>
    cases ys with
    | nil => rfl
    | cons s t => simp [rowsText] at h
  | cons s t ih =>
    cases ys with
    | nil => simp [rowsText] at h
    | cons s2 t2 =>
      obtain ⟨q1, q2, q3, q4, q5, q6⟩ := hx s (by simp)
      obtain ⟨p1, p2, p3, p4, p5, p6⟩ := hy s2 (by simp)
      simp only [rowsText, csvRow_toList, List.cons.injEq, true_and] at h
      obtain ⟨e1, h⟩ := cancel_quoted _ _ _ _ q1 p1 h
      simp only [List.cons.injEq, true_and] at h
      obtain ⟨e2, h⟩ := cancel_quoted _ _ _ _ q2 p2 h
      simp only [List.cons.injEq, true_and] at h
      obtain ⟨e3, h⟩ := cancel_quoted _ _ _ _ q3 p3 h
      simp only [List.cons.injEq, true_and] at h
      obtain ⟨e4, h⟩ := cancel_quoted _ _ _ _ q4 p4 h
      simp only [List.cons.injEq, true_and] at h
      obtain ⟨e5, h⟩ := cancel_quoted _ _ _ _ q5 p5 h
      simp only [List.cons.injEq, true_and] at h
      obtain ⟨e6, h⟩ := cancel_quoted _ _ _ _ q6 p6 h
      have hst : s = s2 := by
        cases s
        cases s2
        simp only [Spot.mk.injEq]
        exact ⟨String.ext e1, String.ext e2, String.ext e3, String.ext e4, String.ext e5,
          String.ext e6⟩
      have htt : t = t2 :=
        ih t2 (fun x hxm => hx x (by simp [hxm])) (fun x hxm => hy x (by simp [hxm])) h
      rw [hst, htt]

/-- C18. On spot lists whose fields contain no double quote `exportToCSV` is
injective: two such lists with the same CSV text have the same length and are
equal spot by spot, field by field, whatever commas and newlines the fields
contain. -/
theorem exportToCSV_injective_quote_free (xs ys : List Spot)
    (hx : ∀ s ∈ xs, QuoteFree s) (hy : ∀ s ∈ ys, QuoteFree s)
    (h : exportToCSV xs = exportToCSV ys) : xs.length = ys.length ∧ xs = ys := by
  have h2 : (exportToCSV xs).toList = (exportToCSV ys).toList := by rw [h]
  rw [exportToCSV_eq, exportToCSV_eq] at h2
  simp only [csvText, foldl_rows_toList] at h2
  have h3 := rowsText_inj xs ys hx hy (List.append_cancel_left h2)
  exact ⟨by rw [h3], h3⟩

/-- Witness for `exportToCSV_injective_quote_free`: two one-spot lists whose
comment holds a comma and a newline. -/
theorem exportToCSV_injective_quote_free_witness :
    (∀ s ∈ [{ exampleSpot with comment := "cq, up 5\nqsl" }], QuoteFree s) ∧
    exportToCSV [{ exampleSpot with comment := "cq, up 5\nqsl" }] =
      exportToCSV [{ exampleSpot with comment := "cq, up 5\nqsl" }] ∧
    [{ exampleSpot with comment := "cq, up 5\nqsl" }].length = 1 :=
  ⟨by simp [QuoteFree, exampleSpot, String.toList], rfl,
    (exportToCSV_injective_quote_free [{ exampleSpot with comment := "cq, up 5\nqsl" }]
      [{ exampleSpot with comment := "cq, up 5\nqsl" }]
      (by simp [QuoteFree, exampleSpot, String.toList])
      (by simp [QuoteFree, exampleSpot, String.toList]) rfl).1⟩

/-! ### `SpotNotifier` -/

/-- A call leaves a context that is held where it is, and constructs none. -/
theorem step_keeps_context (n : Notifier) (op : Op) (c : Nat) (h : n.audioContext = some c) :
    (step n op).audioContext = some c ∧ (step n op).created = n.created := by
  cases op with
  | enable host => simp [step, enable, h]
  | disable => simp [step, disable, h]
  | playBeep f d =>
    simp only [step, playBeep]
    split
    · exact ⟨h, rfl⟩
    · simp [h]
  | notifyNewSpot =>
    simp only [step, notifyNewSpot, playBeep]
    split
    · exact ⟨h, rfl⟩
    · simp [h]

/-- A sequence of calls leaves a context that is held where it is, and
constructs none. -/
theorem run_keeps_context (ops : List Op) (n : Notifier) (c : Nat)
    (h : n.audioContext = some c) :
    (run ops n).audioContext = some c ∧ (run ops n).created = n.created := by
  induction ops generalizing n with
  | nil => exact ⟨h, rfl⟩
  | cons op rest ih =>
    have h1 := step_keeps_context n op c h
    have h2 := ih (step n op) h1.1
    exact ⟨h2.1, h2.2.trans h1.2⟩

/-- The number of contexts constructed is 1 when one is held and 0 otherwise;
every call keeps it so. -/
theorem step_created (n : Notifier) (op : Op)
    (h : n.created = if n.audioContext.isSome then 1 else 0) :
    (step n op).created = if (step n op).audioContext.isSome then 1 else 0 := by
  cases hc : n.audioContext with
  | some c =>
    have h1 := step_keeps_context n op c hc
    rw [h1.1, h1.2, h, hc]
  | none =>
    rw [hc] at h
    simp only [Option.isSome_none, Bool.false_eq_true, if_false] at h
    cases op with
    | enable host => cases host <;> simp [step, enable, hc, h]
    | disable => simp [step, disable, hc, h]
    | playBeep f d => simp [step, playBeep, hc, h]
    | notifyNewSpot => simp [step, notifyNewSpot, playBeep, hc, h]

/-- The count of constructed contexts after any sequence of calls on a fresh
notifier. -/
theorem run_created (ops : List Op) (n : Notifier)
    (h : n.created = if n.audioContext.isSome then 1 else 0) :
    (run ops n).created = if (run ops n).audioContext.isSome then 1 else 0 := by
  induction ops generalizing n with
  | nil => exact h
  | cons op rest ih => exact ih (step n op) (step_created n op h)

/-- Without a context `playBeep` returns at its first line. -/
theorem playBeep_no_context (n : Notifier) (f d : ℚ) (h : n.audioContext = none) :
    playBeep f d n = n := by
  simp [playBeep, h]

/-- While no context is held and no `enable` finds a working constructor, no
sound is scheduled and no context appears. -/
theorem run_silent (ops : List Op) (n : Notifier) (h : n.audioContext = none)
    (hops : ∀ op ∈ ops, op ≠ Op.enable AudioHost.working) :
    (run ops n).audioContext = none ∧ (run ops n).beeps = n.beeps ∧
    (run ops n).created = n.created := by
  induction ops generalizing n with
  | nil => exact ⟨h, rfl, rfl⟩
  | cons op rest ih =>
    have hstep : (step n op).audioContext = none ∧ (step n op).beeps = n.beeps ∧
        (step n op).created = n.created := by
      cases op with
      | enable host =>
        cases host with
        | working => exact absurd rfl (hops _ (by simp))
        | noConstructor => simp [step, enable, h]
        | constructionFails => simp [step, enable, h]
      | disable => simp [step, disable, h]
      | playBeep f d => simp [step, playBeep_no_context n f d h, h]
      | notifyNewSpot => simp [step, notifyNewSpot, playBeep_no_context n 880 80 h, h]
    have hrest := ih (step n op) hstep.1 (fun o ho => hops o (by simp [ho]))
    exact ⟨hrest.1, hrest.2.1.trans hstep.2.1, hrest.2.2.trans hstep.2.2⟩

/-- Counterexample to C14 as stated: on a fresh notifier in a host without an
audio constructor, `enable()` throws to its caller. -/
theorem enable_throws_without_constructor :
    (enable AudioHost.noConstructor Notifier.fresh).2 = some AudioError.notAConstructor ∧
    (enable AudioHost.constructionFails Notifier.fresh).2 =
      some AudioError.constructionFailed :=
  ⟨rfl, rfl⟩

/-- C14, amended. When the audio subsystem is unavailable and the notifier
holds no context, `enable()` throws to its caller, having set `enabled`; the
notifier is left without a context, and from then on `playBeep` and
`notifyNewSpot` are no-ops, through any sequence of calls in which no
`enable()` finds a working constructor. -/
theorem enable_unavailable (host : AudioHost) (n : Notifier)
    (hhost : host ≠ AudioHost.working) (hctx : n.audioContext = none) :
    (enable host n).2 ≠ none ∧
    (enable host n).1 = { n with enabled := true } ∧
    (∀ f d : ℚ, playBeep f d (enable host n).1 = (enable host n).1) ∧
    notifyNewSpot (enable host n).1 = (enable host n).1 ∧
    (∀ ops : List Op, (∀ op ∈ ops, op ≠ Op.enable AudioHost.working) →
      (run ops (enable host n).1).audioContext = none ∧
      (run ops (enable host n).1).beeps = n.beeps) := by
  have hstate : (enable host n).1 = { n with enabled := true } := by
    cases host with
    | working => exact absurd rfl hhost
    | noConstructor => simp [enable, hctx]
    | constructionFails => simp [enable, hctx]
  have hnone : (enable host n).1.audioContext = none := by rw [hstate]; exact hctx
  refine ⟨?_, hstate, fun f d => playBeep_no_context _ f d hnone,
    playBeep_no_context _ 880 80 hnone, fun ops hops => ?_⟩
  · cases host with
    | working => exact absurd rfl hhost
    | noConstructor => simp [enable, hctx]
    | constructionFails => simp [enable, hctx]
  · have := run_silent ops (enable host n).1 hnone hops
    refine ⟨this.1, this.2.1.trans ?_⟩
    rw [hstate]

/-- Witness for `enable_unavailable`: a fresh notifier in a host without an
audio constructor. -/
theorem enable_unavailable_witness :
    AudioHost.noConstructor ≠ AudioHost.working ∧ Notifier.fresh.audioContext = none ∧
    (enable AudioHost.noConstructor Notifier.fresh).2 ≠ none ∧
    notifyNewSpot (enable AudioHost.noConstructor Notifier.fresh).1 =
      (enable AudioHost.noConstructor Notifier.fresh).1 :=
  ⟨by simp, rfl,
    (enable_unavailable AudioHost.noConstructor Notifier.fresh (by simp) rfl).1,
    (enable_unavailable AudioHost.noConstructor Notifier.fresh (by simp) rfl).2.2.2.1⟩

/-- C15. After any sequence of `enable`, `disable`, `playBeep` and
`notifyNewSpot` calls on a fresh notifier at most one audio context has been
constructed; once the field holds a context, every further sequence of calls
leaves that context in the field and constructs none, `disable` changes
`enabled` only, and an `enable` on a notifier holding a context constructs
nothing. -/
theorem at_most_one_context (ops : List Op) :
    (run ops Notifier.fresh).created ≤ 1 ∧
    (∀ c, (run ops Notifier.fresh).audioContext = some c →
      ∀ ops2 : List Op,
        (run ops2 (run ops Notifier.fresh)).audioContext = some c ∧
        (run ops2 (run ops Notifier.fresh)).created = (run ops Notifier.fresh).created) ∧
    (∀ n : Notifier, disable n = { n with enabled := false }) ∧
    (∀ (host : AudioHost) (n : Notifier) (c : Nat), n.audioContext = some c →
      enable host n = ({ n with enabled := true }, none)) ∧
    (run [Op.enable AudioHost.working, Op.disable, Op.enable AudioHost.working,
        Op.notifyNewSpot] Notifier.fresh).created = 1 := by
  refine ⟨?_, fun c hc ops2 => run_keeps_context ops2 _ c hc, fun n => rfl, ?_, rfl⟩
  · have h := run_created ops Notifier.fresh rfl
    rw [h]
    split <;> omega
  · intro host n c hc
    simp [enable, hc]

/-- C16. With `enabled` false or no audio context, `playBeep(frequency,
duration)` does nothing for every frequency and duration: no sound is
scheduled and no field changes, and so for `notifyNewSpot`; this is the case
of a fresh notifier and of a notifier after `disable()`. -/
theorem playBeep_noop (n : Notifier) (f d : ℚ)
    (h : n.enabled = false ∨ n.audioContext = none) :
    playBeep f d n = n ∧ notifyNewSpot n = n ∧
    playBeep f d Notifier.fresh = Notifier.fresh ∧
    notifyNewSpot Notifier.fresh = Notifier.fresh ∧
    (∀ m : Notifier, playBeep f d (disable m) = disable m ∧
      notifyNewSpot (disable m) = disable m) := by
  have key : ∀ (m : Notifier) (g e : ℚ), (m.enabled = false ∨ m.audioContext = none) →
      playBeep g e m = m := by
    intro m g e hm
    rcases hm with hm | hm
    · simp [playBeep, hm]
    · exact playBeep_no_context m g e hm
  exact ⟨key n f d h, key n 880 80 h, key _ f d (Or.inl rfl), key _ 880 80 (Or.inl rfl),
    fun m => ⟨key _ f d (Or.inl rfl), key _ 880 80 (Or.inl rfl)⟩⟩

/-- Witness for `playBeep_noop`: a notifier that was enabled in a working host
and then disabled keeps its context and schedules nothing. -/
theorem playBeep_noop_witness :
    ((disable (enable AudioHost.working Notifier.fresh).1).enabled = false ∨
      (disable (enable AudioHost.working Notifier.fresh).1).audioContext = none) ∧
    playBeep 800 100 (disable (enable AudioHost.working Notifier.fresh).1) =
      disable (enable AudioHost.working Notifier.fresh).1 ∧
    (playBeep 800 100 (enable AudioHost.working Notifier.fresh).1).beeps.length = 1 :=
  ⟨Or.inl rfl,
    (playBeep_noop (disable (enable AudioHost.working Notifier.fresh).1) 800 100
      (Or.inl rfl)).1, rfl⟩

/-! ### `FrequencyUtils.formatFrequency` -/

/-- The floor used by the definitions is the floor of the rationals. -/
theorem floor_eq (r : ℚ) : Rat.floor r = ⌊r⌋ := rfl

/-- Rounding to the nearest integer moves a number by at most one half. -/
theorem roundHalfEven_error (r : ℚ) : |(roundHalfEven r : ℚ) - r| ≤ 1 / 2 := by
  have h1 : (⌊r⌋ : ℚ) ≤ r := Int.floor_le r
  have h2 : r < ⌊r⌋ + 1 := Int.lt_floor_add_one r
  unfold roundHalfEven
  simp only [floor_eq]
  rw [abs_le]
  split_ifs with ha hb hc
  · constructor <;> linarith
  · push_cast; constructor <;> linarith
  · have : r - ⌊r⌋ = 1 / 2 := le_antisymm (not_lt.mp hb) (not_lt.mp ha)
    constructor <;> linarith
  · have : r - ⌊r⌋ = 1 / 2 := le_antisymm (not_lt.mp hb) (not_lt.mp ha)
    push_cast; constructor <;> linarith

/-- An integer less than one half away from a number is what the number rounds to. -/
theorem roundHalfEven_near (r : ℚ) (m : ℤ) (h : |r - m| < 1 / 2) : roundHalfEven r = m := by
  rw [abs_lt] at h
  unfold roundHalfEven
  simp only [floor_eq]
  by_cases hm : (m : ℚ) ≤ r
  · have hf : ⌊r⌋ = m := by
      rw [Int.floor_eq_iff]; constructor <;> linarith
    rw [hf, if_pos (by linarith)]
  · have hf : ⌊r⌋ = m - 1 := by
      rw [Int.floor_eq_iff]; push_cast; constructor <;> linarith
    rw [hf]
    push_cast
    rw [if_neg (by linarith), if_pos (by linarith)]
    ring

/-- The binary exponent of a number between two consecutive powers of two. -/
theorem log2_floor (q : ℚ) (e : ℕ) (h1 : (2 : ℚ) ^ e ≤ q) (h2 : q < 2 ^ (e + 1)) :
    Nat.log2 (Rat.floor q).toNat = e := by
  rw [floor_eq]
  have hq : (0 : ℚ) ≤ q := le_trans (by positivity) h1
  have hfl : (0 : ℤ) ≤ ⌊q⌋ := Int.floor_nonneg.mpr hq
  have hlo : 2 ^ e ≤ ⌊q⌋.toNat := by
    have : ((2 ^ e : ℕ) : ℤ) ≤ ⌊q⌋ := by
      rw [Int.le_floor]; push_cast; exact h1
    omega
  have hhi : ⌊q⌋.toNat < 2 ^ (e + 1) := by
    have : ⌊q⌋ < ((2 ^ (e + 1) : ℕ) : ℤ) := by
      rw [Int.floor_lt]; push_cast; exact h2
    omega
  rw [Nat.log2_eq_log_two]
  have hne : ⌊q⌋.toNat ≠ 0 := Nat.pos_iff_ne_zero.mp (lt_of_lt_of_le (by positivity) hlo)
  exact (Nat.log_eq_iff (Or.inr ⟨by norm_num, hne⟩)).mpr ⟨hlo, hhi⟩

/-- The binary64 number nearest to `q`, from the exponent of `q` and an integer
less than one half away from `q` counted in units of the spacing. -/
theorem roundDouble_eq (q : ℚ) (e : ℕ) (m : ℤ) (h1 : (2 : ℚ) ^ e ≤ q) (h2 : q < 2 ^ (e + 1))
    (hm : |q / (2 ^ e / 2 ^ 52) - m| < 1 / 2) : roundDouble q = m * (2 ^ e / 2 ^ 52) := by
  unfold roundDouble ulpAt
  rw [log2_floor q e h1 h2, roundHalfEven_near _ m hm]


/-- The quotient `14200 / 1000` as a binary64 number. -/
theorem roundDouble_14200 : roundDouble (14200 / 1000) = 7993889338582630 * (2 ^ 3 / 2 ^ 52) := by
  have := roundDouble_eq (14200 / 1000) 3 7993889338582630 (by norm_num) (by norm_num)
    (by rw [abs_lt]; constructor <;> norm_num)
  exact_mod_cast this

/-- The division is off by at most half the spacing, which is at most the
quotient times `2^-53`. -/
theorem roundDouble_error (q : ℚ) (hq : 1 ≤ q) :
    |roundDouble q - q| ≤ ulpAt q / 2 ∧ ulpAt q / 2 ≤ q / 2 ^ 53 := by
  have hfl : (1 : ℤ) ≤ ⌊q⌋ := by rw [Int.le_floor]; exact_mod_cast hq
  have hne : (Rat.floor q).toNat ≠ 0 := by rw [floor_eq]; omega
  have hpow : 2 ^ Nat.log2 (Rat.floor q).toNat ≤ (Rat.floor q).toNat := Nat.log2_self_le hne
  have hpowq : ((2 : ℚ) ^ Nat.log2 (Rat.floor q).toNat) ≤ q := by
    have h1 : ((2 ^ Nat.log2 (Rat.floor q).toNat : ℕ) : ℚ) ≤ ((Rat.floor q).toNat : ℚ) := by
      exact_mod_cast hpow
    have h2 : (((Rat.floor q).toNat : ℤ) : ℚ) ≤ q := by
      rw [floor_eq, Int.toNat_of_nonneg (by omega)]
      exact Int.floor_le q
    push_cast at h1
    have h3 : (((Rat.floor q).toNat : ℕ) : ℚ) = (((Rat.floor q).toNat : ℤ) : ℚ) := by norm_cast
    linarith
  have hulp : 0 < ulpAt q := by unfold ulpAt; positivity
  constructor
  · unfold roundDouble
    have herr := roundHalfEven_error (q / ulpAt q)
    have : (roundHalfEven (q / ulpAt q) : ℚ) * ulpAt q - q =
        ((roundHalfEven (q / ulpAt q) : ℚ) - q / ulpAt q) * ulpAt q := by
      field_simp
    rw [this, abs_mul, abs_of_pos hulp]
    calc |(roundHalfEven (q / ulpAt q) : ℚ) - q / ulpAt q| * ulpAt q
        ≤ 1 / 2 * ulpAt q := by exact mul_le_mul_of_nonneg_right herr hulp.le
      _ = ulpAt q / 2 := by ring
  · unfold ulpAt
    have : (2 : ℚ) ^ Nat.log2 (Rat.floor q).toNat / 2 ^ 52 / 2 =
        (2 : ℚ) ^ Nat.log2 (Rat.floor q).toNat / 2 ^ 53 := by ring
    rw [this]
    exact div_le_div_of_nonneg_right hpowq (by positivity)

/-- Any fuel of at least `n` gives the same digits of `n`. -/
theorem decimalDigitsFuel_fuel (fuel1 : Nat) : ∀ (fuel2 n : Nat), n ≤ fuel1 → n ≤ fuel2 →
    decimalDigitsFuel fuel1 n = decimalDigitsFuel fuel2 n := by
  induction fuel1 with
  | zero =>
    intro fuel2 n h1 _
    have hn : n = 0 := by omega
    subst hn
    cases fuel2 <;> simp [decimalDigitsFuel]
  | succ a ih =>
    intro fuel2 n h1 h2
    by_cases hn : n < 10
    · cases fuel2 with
      | zero =>
        have hn0 : n = 0 := by omega
        subst hn0
        simp [decimalDigitsFuel]
      | succ b => simp [decimalDigitsFuel, hn]
    · cases fuel2 with
      | zero => omega
      | succ b =>
        simp only [decimalDigitsFuel, if_neg hn]
        rw [ih b (n / 10) (by omega) (by omega)]

/-- A number below ten has one digit. -/
theorem decimalDigits_lt (n : Nat) (h : n < 10) : decimalDigits n = [digitChar n] := by
  unfold decimalDigits
  cases n with
  | zero => rfl
  | succ k => simp [decimalDigitsFuel, h]

/-- The digits of a number from ten on: those of its tenth part, then its last
digit. -/
theorem decimalDigits_ge (n : Nat) (h : 10 ≤ n) :
    decimalDigits n = decimalDigits (n / 10) ++ [digitChar (n % 10)] := by
  unfold decimalDigits
  cases n with
  | zero => omega
  | succ k =>
    simp only [decimalDigitsFuel, if_neg (by omega : ¬ k + 1 < 10)]
    rw [decimalDigitsFuel_fuel k ((k + 1) / 10) ((k + 1) / 10) (by omega) (le_refl _)]

/-- Every number has at least one digit. -/
theorem decimalDigits_length_pos (n : Nat) : 1 ≤ (decimalDigits n).length := by
  by_cases h : n < 10
  · rw [decimalDigits_lt n h]; simp
  · rw [decimalDigits_ge n (by omega)]; simp

/-- Padding and splitting the digits of `n` as `toFixed(1)` does gives the
digits of `n / 10`, a point, and the last digit of `n`. -/
theorem fixed_split (n : Nat) :
    (let m := decimalDigits n
     let m := if m.length ≤ 1 then List.replicate (1 + 1 - m.length) '0' ++ m else m
     m.take (m.length - 1) ++ '.' :: m.drop (m.length - 1)) =
    decimalDigits (n / 10) ++ ['.', digitChar (n % 10)] := by
  by_cases h : n < 10
  · have h0 : n / 10 = 0 := by omega
    have h1 : n % 10 = n := by omega
    rw [h0, h1]
    simp only [decimalDigits_lt n h, decimalDigits_lt 0 (by norm_num)]
    rfl
  · have hlen := decimalDigits_length_pos (n / 10)
    simp only [decimalDigits_ge n (by omega)]
    have hnot : ¬ (decimalDigits (n / 10) ++ [digitChar (n % 10)]).length ≤ 1 := by
      rw [List.length_append, List.length_singleton]; omega
    simp only [if_neg hnot]
    have hl : (decimalDigits (n / 10) ++ [digitChar (n % 10)]).length - 1 =
        (decimalDigits (n / 10)).length := by simp
    rw [hl, List.take_left, List.drop_left]

/-- Below `10^21` the text of `toFixed(1)` is a decimal numeral with one digit
after the point. -/
theorem fixedDigits_eq (x : ℚ) (h : x < 10 ^ 21) :
    fixedDigits x = String.mk (decimalDigits ((Rat.floor (10 * x + 1 / 2)).toNat / 10) ++
      ['.', digitChar ((Rat.floor (10 * x + 1 / 2)).toNat % 10)]) := by
  unfold fixedDigits
  rw [if_neg (not_le.mpr h)]
  exact congrArg String.mk (fixed_split _)

/-- The numeral of `toFixed(1)` is within one twentieth of the number. -/
theorem fixed_error (x : ℚ) (h : 0 ≤ x) :
    |(((Rat.floor (10 * x + 1 / 2)).toNat : ℕ) : ℚ) / 10 - x| ≤ 1 / 20 := by
  rw [floor_eq]
  have hfl : 0 ≤ ⌊10 * x + 1 / 2⌋ := Int.floor_nonneg.mpr (by linarith)
  have hcast : ((⌊10 * x + 1 / 2⌋.toNat : ℕ) : ℚ) = ((⌊10 * x + 1 / 2⌋ : ℤ) : ℚ) := by
    have := Int.toNat_of_nonneg hfl
    exact_mod_cast congrArg (fun z : ℤ => (z : ℚ)) this
  rw [hcast, abs_le]
  have h1 := Int.floor_le (10 * x + 1 / 2)
  have h2 := Int.lt_floor_add_one (10 * x + 1 / 2)
  constructor <;> linarith

/-- The kHz branch: `toFixed(1)` on the frequency itself. -/
theorem formatFrequency_kHz (f : ℚ) (h0 : 0 ≤ f) (h : f < 1000) :
    formatFrequency f =
      String.mk (decimalDigits ((Rat.floor (10 * f + 1 / 2)).toNat / 10) ++
        ['.', digitChar ((Rat.floor (10 * f + 1 / 2)).toNat % 10)]) ++ " kHz" := by
  unfold formatFrequency toFixed1
  rw [if_neg (not_le.mpr h), if_neg (not_lt.mpr h0), fixedDigits_eq f (by linarith)]

/-- The quotient of the division is not negative. -/
theorem roundDouble_pos (q : ℚ) (hq : 1 ≤ q) : 0 ≤ roundDouble q := by
  obtain ⟨h1, h2⟩ := roundDouble_error q hq
  have h3 := (abs_le.mp (h1.trans h2)).1
  have h4 : q / 2 ^ 53 ≤ q := div_le_self (by linarith) (by norm_num)
  linarith

/-- The MHz branch while the quotient is below `10^21`: `toFixed(1)` on the
binary64 quotient. -/
theorem formatFrequency_MHz (f : ℚ) (h : 1000 ≤ f) (hx : roundDouble (f / 1000) < 10 ^ 21) :
    formatFrequency f =
      String.mk (decimalDigits ((Rat.floor (10 * roundDouble (f / 1000) + 1 / 2)).toNat / 10) ++
        ['.', digitChar ((Rat.floor (10 * roundDouble (f / 1000) + 1 / 2)).toNat % 10)]) ++
        " MHz" := by
  have hq : (1 : ℚ) ≤ f / 1000 := by rw [le_div_iff₀ (by norm_num)]; linarith
  unfold formatFrequency toFixed1
  rw [if_pos h, if_neg (not_lt.mpr (roundDouble_pos _ hq)), fixedDigits_eq _ hx]

/-- For an integer frequency up to `2^53` the division is off by at most
`1/1024`. -/
theorem roundDouble_int_error (F : ℕ) (h1 : 1000 ≤ F) (h2 : F ≤ 2 ^ 53) :
    |roundDouble ((F : ℚ) / 1000) - (F : ℚ) / 1000| ≤ 1 / 1024 := by
  have hF1 : (1000 : ℚ) ≤ F := by exact_mod_cast h1
  have hF2 : (F : ℚ) ≤ 2 ^ 53 := by exact_mod_cast h2
  have hq : (1 : ℚ) ≤ (F : ℚ) / 1000 := by rw [le_div_iff₀ (by norm_num)]; linarith
  have hq2 : (F : ℚ) / 1000 < 2 ^ 44 := by rw [div_lt_iff₀ (by norm_num)]; norm_num at hF2 ⊢; linarith
  obtain ⟨he, -⟩ := roundDouble_error _ hq
  refine he.trans ?_
  have hfl1 : (1 : ℤ) ≤ ⌊(F : ℚ) / 1000⌋ := by rw [Int.le_floor]; exact_mod_cast hq
  have hfl2 : ⌊(F : ℚ) / 1000⌋ < ((2 ^ 44 : ℕ) : ℤ) := by
    rw [Int.floor_lt]; push_cast; exact hq2
  have hne : (Rat.floor ((F : ℚ) / 1000)).toNat ≠ 0 := by rw [floor_eq]; omega
  have hlog : Nat.log2 (Rat.floor ((F : ℚ) / 1000)).toNat < 44 := by
    rw [Nat.log2_lt hne, floor_eq]; omega
  unfold ulpAt
  have hpow : (2 : ℚ) ^ Nat.log2 (Rat.floor ((F : ℚ) / 1000)).toNat ≤ 2 ^ 43 :=
    pow_le_pow_right₀ (by norm_num) (by omega)
  have : (2 : ℚ) ^ Nat.log2 (Rat.floor ((F : ℚ) / 1000)).toNat / 2 ^ 52 / 2 ≤
      2 ^ 43 / 2 ^ 52 / 2 := by
    apply div_le_div_of_nonneg_right _ (by norm_num)
    exact div_le_div_of_nonneg_right hpow (by positivity)
  refine this.trans ?_
  norm_num

/-- For an integer frequency up to `2^53` the printed value is within one
twentieth of the exact quotient. -/
theorem fixed_int_error (F : ℕ) (h1 : 1000 ≤ F) (h2 : F ≤ 2 ^ 53) :
    |(((Rat.floor (10 * roundDouble ((F : ℚ) / 1000) + 1 / 2)).toNat : ℕ) : ℚ) / 10 -
      (F : ℚ) / 1000| ≤ 1 / 20 := by
  have herr := abs_le.mp (roundDouble_int_error F h1 h2)
  have hF1 : (1000 : ℚ) ≤ F := by exact_mod_cast h1
  have hq : (1 : ℚ) ≤ (F : ℚ) / 1000 := by rw [le_div_iff₀ (by norm_num)]; linarith
  have hx0 := roundDouble_pos _ hq
  set x := roundDouble ((F : ℚ) / 1000) with hxdef
  rw [floor_eq]
  have hfl : 0 ≤ ⌊10 * x + 1 / 2⌋ := Int.floor_nonneg.mpr (by linarith)
  have hcast : ((⌊10 * x + 1 / 2⌋.toNat : ℕ) : ℚ) = ((⌊10 * x + 1 / 2⌋ : ℤ) : ℚ) := by
    have := Int.toNat_of_nonneg hfl
    exact_mod_cast congrArg (fun z : ℤ => (z : ℚ)) this
  rw [hcast]
  have f1 := Int.floor_le (10 * x + 1 / 2)
  have f2 := Int.lt_floor_add_one (10 * x + 1 / 2)
  set N := ⌊10 * x + 1 / 2⌋ with hN
  have u1 : ((100 * N : ℤ) : ℚ) < ((F + 51 : ℤ) : ℚ) := by
    push_cast; linarith [herr.1, herr.2]
  have u2 : (((F : ℤ) - 51 : ℤ) : ℚ) < ((100 * N : ℤ) : ℚ) := by
    push_cast; linarith [herr.1, herr.2]
  have v1 : 100 * N < F + 51 := by exact_mod_cast u1
  have v2 : (F : ℤ) - 51 < 100 * N := by exact_mod_cast u2
  have w1 : 100 * N ≤ F + 50 := by omega
  have w2 : (F : ℤ) - 50 ≤ 100 * N := by omega
  have z1 : ((100 * N : ℤ) : ℚ) ≤ ((F + 50 : ℤ) : ℚ) := by exact_mod_cast w1
  have z2 : (((F : ℤ) - 50 : ℤ) : ℚ) ≤ ((100 * N : ℤ) : ℚ) := by exact_mod_cast w2
  push_cast at z1 z2
  rw [abs_le]
  constructor <;> linarith

/-- An integer frequency below 1000 is printed as its digits followed by `.0`. -/
theorem formatFrequency_int_kHz (F : ℕ) (h : F < 1000) :
    formatFrequency (F : ℚ) = String.mk (decimalDigits F ++ ['.', '0']) ++ " kHz" := by
  have hF : (F : ℚ) < 1000 := by exact_mod_cast h
  rw [formatFrequency_kHz (F : ℚ) (by positivity) hF]
  have hfl : (Rat.floor (10 * (F : ℚ) + 1 / 2)).toNat = 10 * F := by
    rw [floor_eq]
    have : ⌊10 * (F : ℚ) + 1 / 2⌋ = ((10 * F : ℕ) : ℤ) := by
      rw [Int.floor_eq_iff]; push_cast; constructor <;> linarith
    rw [this, Int.toNat_natCast]
  rw [hfl]
  have h1 : 10 * F / 10 = F := by omega
  have h2 : 10 * F % 10 = 0 := by omega
  rw [h1, h2]
  rfl

/-- The first example of the specification. -/
theorem formatFrequency_14200 : formatFrequency 14200 = "14.2 MHz" := by
  have hx : roundDouble (14200 / 1000) = 7993889338582630 * (2 ^ 3 / 2 ^ 52) := roundDouble_14200
  rw [formatFrequency_MHz 14200 (by norm_num) (by rw [hx]; norm_num), hx]
  have hfl : (Rat.floor (10 * (7993889338582630 * (2 ^ 3 / 2 ^ 52) : ℚ) + 1 / 2)).toNat = 142 := by
    rw [floor_eq]
    have : ⌊10 * (7993889338582630 * (2 ^ 3 / 2 ^ 52) : ℚ) + 1 / 2⌋ = 142 := by
      rw [Int.floor_eq_iff]; constructor <;> norm_num
    rw [this]; rfl
  rw [hfl]
  decide

/-- The second example of the specification. -/
theorem formatFrequency_500 : formatFrequency 500 = "500.0 kHz" := by
  have := formatFrequency_int_kHz 500 (by norm_num)
  rw [show ((500 : ℕ) : ℚ) = 500 by norm_num] at this
  rw [this]
  decide

/-- The frequency `2^63`: the binary64 quotient is an even integer. -/
theorem formatFrequency_two_pow_63 :
    formatFrequency (2 ^ 63) = "9223372036854776.0 MHz" := by
  have hx : roundDouble (2 ^ 63 / 1000) = 4611686018427388 * (2 ^ 53 / 2 ^ 52) := by
    have := roundDouble_eq (2 ^ 63 / 1000) 53 4611686018427388 (by norm_num) (by norm_num)
      (by rw [abs_lt]; constructor <;> norm_num)
    exact_mod_cast this
  rw [formatFrequency_MHz (2 ^ 63) (by norm_num) (by rw [hx]; norm_num), hx]
  have hfl : (Rat.floor (10 * (4611686018427388 * (2 ^ 53 / 2 ^ 52) : ℚ) + 1 / 2)).toNat =
      92233720368547760 := by
    rw [floor_eq]
    have : ⌊10 * (4611686018427388 * (2 ^ 53 / 2 ^ 52) : ℚ) + 1 / 2⌋ = 92233720368547760 := by
      rw [Int.floor_eq_iff]; constructor <;> norm_num
    rw [this]; rfl
  rw [hfl]
  decide

/-- The number `10^21` is a binary64 number. -/
theorem roundDouble_1e21 :
    roundDouble 1000000000000000000000 = 1000000000000000000000 := by
  have := roundDouble_eq 1000000000000000000000 69 7629394531250000 (by norm_num) (by norm_num)
    (by rw [abs_lt]; constructor <;> norm_num)
  rw [this]; norm_num

/-- The number `2 * 10^21` is a binary64 number. -/
theorem roundDouble_2e21 :
    roundDouble 2000000000000000000000 = 2000000000000000000000 := by
  have := roundDouble_eq 2000000000000000000000 70 7629394531250000 (by norm_num) (by norm_num)
    (by rw [abs_lt]; constructor <;> norm_num)
  rw [this]; norm_num

/-- One digit identifies `10^21`. -/
theorem shortestDigitsAt_1e21 : shortestDigitsAt 1000000000000000000000 22 1 = some 1 := by
  unfold shortestDigitsAt
  have hp : (10 : ℕ) ^ (22 - 1) = 1000000000000000000000 := by norm_num
  have hlo : 1000000000000000000000 / 1000000000000000000000 = 1 := by norm_num
  simp only [hp, hlo]
  have c1 : (((1 * 1000000000000000000000 : ℕ)) : ℚ) = 1000000000000000000000 := by norm_num
  have c2 : ((((1 + 1) * 1000000000000000000000 : ℕ)) : ℚ) = 2000000000000000000000 := by
    norm_num
  have c3 : ((1000000000000000000000 : ℕ) : ℚ) = 1000000000000000000000 := by norm_num
  rw [c1, c2, roundDouble_1e21, roundDouble_2e21]
  norm_num

/-- The integer part of `10^21`. -/
theorem floor_1e21 : (Rat.floor (1000000000000000000000 : ℚ)).toNat = 1000000000000000000000 := by
  rw [floor_eq]
  have : (1000000000000000000000 : ℚ) = ((1000000000000000000000 : ℕ) : ℚ) := by norm_num
  rw [this, Int.floor_natCast, Int.toNat_natCast]

/-- The number `10^21` has 22 decimal digits. -/
theorem decimalDigits_1e21_length : (decimalDigits 1000000000000000000000).length = 22 := by decide

/-- The search stops at the first number of digits that has a candidate. -/
theorem shortestDigits_found (X n fuel k s : Nat) (h : shortestDigitsAt X n k = some s) :
    shortestDigits X n (fuel + 1) k = (s, k) := by
  simp only [shortestDigits, h]

/-- The search for `10^21` stops at one digit. -/
theorem shortestDigits_1e21 : shortestDigits 1000000000000000000000 22 17 1 = (1, 1) :=
  shortestDigits_found 1000000000000000000000 22 16 1 1 shortestDigitsAt_1e21

/-- The text of `Number::toString` for `10^21`. -/
theorem exponentNotation_1e21 : exponentNotation 1000000000000000000000 = "1e+21" := by
  unfold exponentNotation
  simp only [floor_1e21, decimalDigits_1e21_length, shortestDigits_1e21]
  decide

/-- The frequency written `1e24`: the quotient is `10^21`, where `toFixed`
switches to exponent notation. -/
theorem formatFrequency_1e24 :
    formatFrequency 999999999999999983222784 = "1e+21 MHz" := by
  have hx : roundDouble (999999999999999983222784 / 1000) = 1000000000000000000000 := by
    have := roundDouble_eq (999999999999999983222784 / 1000) 69 7629394531250000
      (by norm_num) (by norm_num) (by rw [abs_lt]; constructor <;> norm_num)
    rw [this]; norm_num
  unfold formatFrequency toFixed1 fixedDigits
  rw [if_pos (by norm_num), hx, if_neg (by norm_num), if_pos (by norm_num),
    exponentNotation_1e21]
  decide

/-- A binary64 number `f` from 1 to below `2^53` and an integer other than it
are at least one spacing apart, and the spacing exceeds `f` times `2^-53`. -/
theorem double_gap (f : ℚ) (h1 : 1 ≤ f) (h2 : f < 2 ^ 53) (hd : roundDouble f = f) (c : ℤ)
    (hne : (c : ℚ) ≠ f) : ulpAt f ≤ |f - c| ∧ f / 2 ^ 53 < ulpAt f := by
  have hfl1 : (1 : ℤ) ≤ ⌊f⌋ := by rw [Int.le_floor]; exact_mod_cast h1
  have hfl2 : ⌊f⌋ < ((2 ^ 53 : ℕ) : ℤ) := by rw [Int.floor_lt]; push_cast; exact h2
  have hne0 : (Rat.floor f).toNat ≠ 0 := by rw [floor_eq]; omega
  have hlog : Nat.log2 (Rat.floor f).toNat < 53 := by
    rw [Nat.log2_lt hne0, floor_eq]; omega
  have hlt : (Rat.floor f).toNat < 2 ^ (Nat.log2 (Rat.floor f).toNat + 1) := Nat.lt_log2_self
  set i := Nat.log2 (Rat.floor f).toNat with hi
  have hu : ulpAt f = (2 : ℚ) ^ i / 2 ^ 52 := rfl
  have hupos : 0 < ulpAt f := by rw [hu]; positivity
  have hf_lt : f < 2 ^ (i + 1) := by
    have h3 : ⌊f⌋ < ((2 ^ (i + 1) : ℕ) : ℤ) := by
      rw [floor_eq] at hlt
      omega
    have := Int.floor_lt.mp h3
    exact_mod_cast this
  have hsecond : f / 2 ^ 53 < ulpAt f := by
    rw [hu, div_lt_div_iff₀ (by positivity) (by positivity)]
    calc f * 2 ^ 52 < 2 ^ (i + 1) * 2 ^ 52 := by
          exact mul_lt_mul_of_pos_right hf_lt (by positivity)
      _ = 2 ^ i * 2 ^ 53 := by ring
  refine ⟨?_, hsecond⟩
  have hK : ulpAt f * 2 ^ (52 - i) = 1 := by
    rw [hu, div_mul_eq_mul_div, ← pow_add, show i + (52 - i) = 52 by omega]
    exact div_self (by positivity)
  obtain ⟨m, hm⟩ : ∃ m : ℤ, f = m * ulpAt f := ⟨roundHalfEven (f / ulpAt f), hd.symm⟩
  have hc : (c : ℚ) = ((c * 2 ^ (52 - i) : ℤ) : ℚ) * ulpAt f := by
    push_cast
    rw [mul_assoc, mul_comm ((2 : ℚ) ^ (52 - i)) (ulpAt f), hK, mul_one]
  have hdiff : f - c = ((m - c * 2 ^ (52 - i) : ℤ) : ℚ) * ulpAt f := by
    rw [Int.cast_sub, sub_mul, ← hc, ← hm]
  have hz : m - c * 2 ^ (52 - i) ≠ 0 := by
    intro h0
    rw [h0] at hdiff
    simp at hdiff
    exact hne (by linarith)
  have habs : (1 : ℚ) ≤ |((m - c * 2 ^ (52 - i) : ℤ) : ℚ)| := by
    rw [← Int.cast_abs]
    exact_mod_cast Int.one_le_abs hz
  rw [hdiff, abs_mul, abs_of_pos hupos]
  calc ulpAt f = 1 * ulpAt f := (one_mul _).symm
    _ ≤ |((m - c * 2 ^ (52 - i) : ℤ) : ℚ)| * ulpAt f :=
        mul_le_mul_of_nonneg_right habs hupos.le

/-- For a binary64 frequency from 1000 to below `2^53` the printed value is
within one twentieth of the exact quotient: the division cannot carry the
quotient across a rounding boundary of `toFixed(1)`. -/
theorem fixed_double_error (f : ℚ) (h1 : 1000 ≤ f) (h2 : f < 2 ^ 53) (hd : roundDouble f = f) :
    |(((Rat.floor (10 * roundDouble (f / 1000) + 1 / 2)).toNat : ℕ) : ℚ) / 10 - f / 1000| ≤
      1 / 20 := by
  have hq : (1 : ℚ) ≤ f / 1000 := by rw [le_div_iff₀ (by norm_num)]; linarith
  obtain ⟨e1, e2⟩ := roundDouble_error (f / 1000) hq
  have herr := abs_le.mp (e1.trans e2)
  have hx0 := roundDouble_pos _ hq
  set x := roundDouble (f / 1000) with hxdef
  rw [floor_eq]
  have hfl : 0 ≤ ⌊10 * x + 1 / 2⌋ := Int.floor_nonneg.mpr (by linarith)
  have hcast : ((⌊10 * x + 1 / 2⌋.toNat : ℕ) : ℚ) = ((⌊10 * x + 1 / 2⌋ : ℤ) : ℚ) := by
    have := Int.toNat_of_nonneg hfl
    exact_mod_cast congrArg (fun z : ℤ => (z : ℚ)) this
  rw [hcast]
  have f1 := Int.floor_le (10 * x + 1 / 2)
  have f2 := Int.lt_floor_add_one (10 * x + 1 / 2)
  set N := ⌊10 * x + 1 / 2⌋ with hN
  rw [abs_le]
  constructor
  · by_contra hcon
    push_neg at hcon
    have hlt : (((50 * (2 * N + 1) : ℤ)) : ℚ) < f := by push_cast; linarith
    obtain ⟨g1, g2⟩ := double_gap f (by linarith) h2 hd (50 * (2 * N + 1)) (ne_of_lt hlt)
    rw [abs_of_pos (by linarith)] at g1
    push_cast at g1 hlt
    have hdiv : f / 1000 / 2 ^ 53 = f / 2 ^ 53 / 1000 := by ring
    linarith [herr.1]
  · by_contra hcon
    push_neg at hcon
    have hlt : f < (((50 * (2 * N - 1) : ℤ)) : ℚ) := by push_cast; linarith
    obtain ⟨g1, g2⟩ := double_gap f (by linarith) h2 hd (50 * (2 * N - 1)) (ne_of_gt hlt)
    rw [abs_of_neg (by linarith)] at g1
    push_cast at g1 hlt
    have hdiv : f / 1000 / 2 ^ 53 = f / 2 ^ 53 / 1000 := by ring
    linarith [herr.2]

/-- The frequency 14074.5 is a binary64 number and is printed as `14.1 MHz`. -/
theorem formatFrequency_14074_5 :
    roundDouble (140745 / 10) = 140745 / 10 ∧ formatFrequency (140745 / 10) = "14.1 MHz" := by
  have hd : roundDouble (140745 / 10) = 140745 / 10 := by
    have := roundDouble_eq (140745 / 10) 13 7737538202566656 (by norm_num) (by norm_num)
      (by rw [abs_lt]; constructor <;> norm_num)
    rw [this]; norm_num
  have hx : roundDouble (140745 / 10 / 1000) = 7923239119428256 * (2 ^ 3 / 2 ^ 52) := by
    have := roundDouble_eq (140745 / 10 / 1000) 3 7923239119428256 (by norm_num) (by norm_num)
      (by rw [abs_lt]; constructor <;> norm_num)
    exact_mod_cast this
  refine ⟨hd, ?_⟩
  rw [formatFrequency_MHz (140745 / 10) (by norm_num) (by rw [hx]; norm_num), hx]
  have hfl : (Rat.floor (10 * (7923239119428256 * (2 ^ 3 / 2 ^ 52) : ℚ) + 1 / 2)).toNat = 141 := by
    rw [floor_eq]
    have : ⌊10 * (7923239119428256 * (2 ^ 3 / 2 ^ 52) : ℚ) + 1 / 2⌋ = 141 := by
      rw [Int.floor_eq_iff]; constructor <;> norm_num
    rw [this]; rfl
  rw [hfl]
  decide

/-- The character of a digit below ten is in `[0-9]`. -/
theorem digitChar_isDigit : ∀ d : Nat, d < 10 → isDigit09 (digitChar d) = true := by
  decide

/-- The decimal representation of a number consists of characters of `[0-9]`. -/
theorem decimalDigits_isDigit (n : Nat) : ∀ c ∈ decimalDigits n, isDigit09 c = true := by
  induction n using Nat.strong_induction_on with
  | _ n ih =>
    by_cases h : n < 10
    · rw [decimalDigits_lt n h]
      intro c hc
      rw [List.mem_singleton.mp hc]
      exact digitChar_isDigit n h
    · rw [decimalDigits_ge n (by omega)]
      intro c hc
      rcases List.mem_append.mp hc with hc | hc
      · exact ih (n / 10) (by omega) c hc
      · rw [List.mem_singleton.mp hc]
        exact digitChar_isDigit (n % 10) (by omega)

/-- Counterexample to C13 as stated. The binary64 number written `1e24` (it is
`7450580596923828 * 2^27`) divided by 1000 gives the binary64 number `10^21`,
for which `toFixed(1)` returns exponent notation: the result is `1e+21 MHz`,
not a numeral with one digit after the point. For `2^63` the result is a
numeral, but the division has rounded the quotient to an even integer and the
printed value is more than 0.05 away from `f / 1000`. -/
theorem formatFrequency_large_inputs :
    ((999999999999999983222784 : ℚ) = 7450580596923828 * 2 ^ 27 ∧
      (7450580596923828 : ℚ) < 2 ^ 53) ∧
    formatFrequency 999999999999999983222784 = "1e+21 MHz" ∧
    formatFrequency (2 ^ 63) = "9223372036854776.0 MHz" ∧
    ¬ (|(9223372036854776 : ℚ) - 2 ^ 63 / 1000| ≤ 1 / 20) := by
  refine ⟨⟨by norm_num, by norm_num⟩, formatFrequency_1e24, formatFrequency_two_pow_63, ?_⟩
  rw [abs_le]
  norm_num

/-- C13, amended. For a frequency `f` that is not negative: below 1000 the
result is the numeral of `f` rounded to one decimal place (digits, a point, one
digit; within 0.05 of `f`) followed by ` kHz`, which for an integer `f` is its
digits followed by `.0 kHz`; from 1000 on, while the binary64 quotient of
`f / 1000` is below `10^21`, the result is such a numeral within 0.05 of that
quotient, itself within `f / 1000` times `2^-53` of `f / 1000`, followed by
` MHz`; for a binary64 `f` below `2^53`, and for an integer `f` up to `2^53`,
the numeral is within 0.05 of `f / 1000`; 14200 gives `14.2 MHz`, 14074.5
gives `14.1 MHz` and 500 gives `500.0 kHz`. -/
theorem formatFrequency_one_decimal :
    (∀ f : ℚ, 0 ≤ f → f < 1000 → ∃ n : ℕ,
      formatFrequency f =
        String.mk (decimalDigits (n / 10) ++ ['.', digitChar (n % 10)]) ++ " kHz" ∧
      |(n : ℚ) / 10 - f| ≤ 1 / 20) ∧
    (∀ f : ℚ, 1000 ≤ f → roundDouble (f / 1000) < 10 ^ 21 → ∃ n : ℕ,
      formatFrequency f =
        String.mk (decimalDigits (n / 10) ++ ['.', digitChar (n % 10)]) ++ " MHz" ∧
      |(n : ℚ) / 10 - roundDouble (f / 1000)| ≤ 1 / 20 ∧
      |roundDouble (f / 1000) - f / 1000| ≤ f / 1000 / 2 ^ 53) ∧
    (∀ f : ℚ, 1000 ≤ f → f < 2 ^ 53 → roundDouble f = f → ∃ n : ℕ,
      formatFrequency f =
        String.mk (decimalDigits (n / 10) ++ ['.', digitChar (n % 10)]) ++ " MHz" ∧
      |(n : ℚ) / 10 - f / 1000| ≤ 1 / 20) ∧
    (∀ F : ℕ, 1000 ≤ F → F ≤ 2 ^ 53 → ∃ n : ℕ,
      formatFrequency (F : ℚ) =
        String.mk (decimalDigits (n / 10) ++ ['.', digitChar (n % 10)]) ++ " MHz" ∧
      |(n : ℚ) / 10 - (F : ℚ) / 1000| ≤ 1 / 20) ∧
    (∀ F : ℕ, F < 1000 →
      formatFrequency (F : ℚ) = String.mk (decimalDigits F ++ ['.', '0']) ++ " kHz") ∧
    (∀ n : ℕ, (∀ c ∈ decimalDigits (n / 10), isDigit09 c = true) ∧
      isDigit09 (digitChar (n % 10)) = true) ∧
    formatFrequency 14200 = "14.2 MHz" ∧ formatFrequency 500 = "500.0 kHz" ∧
    (roundDouble (140745 / 10) = 140745 / 10 ∧ formatFrequency (140745 / 10) = "14.1 MHz") := by
  refine ⟨?_, ?_, ?_, ?_, formatFrequency_int_kHz, ?_, formatFrequency_14200,
    formatFrequency_500, formatFrequency_14074_5⟩
  · intro f h0 h
    exact ⟨_, formatFrequency_kHz f h0 h, fixed_error f h0⟩
  · intro f h hx
    have hq : (1 : ℚ) ≤ f / 1000 := by rw [le_div_iff₀ (by norm_num)]; linarith
    obtain ⟨e1, e2⟩ := roundDouble_error (f / 1000) hq
    exact ⟨_, formatFrequency_MHz f h hx, fixed_error _ (roundDouble_pos _ hq), e1.trans e2⟩
  · intro f h1 h2 hd
    have hq : (1 : ℚ) ≤ f / 1000 := by rw [le_div_iff₀ (by norm_num)]; linarith
    obtain ⟨e1, e2⟩ := roundDouble_error (f / 1000) hq
    have herr := abs_le.mp (e1.trans e2)
    have hx : roundDouble (f / 1000) < 10 ^ 21 := by
      have hle : f / 1000 / 2 ^ 53 ≤ f / 1000 := div_le_self (by linarith) (by norm_num)
      have h3 := herr.2
      norm_num at h2 h3 hle ⊢
      linarith
    exact ⟨_, formatFrequency_MHz f h1 hx, fixed_double_error f h1 h2 hd⟩
  · intro F h1 h2
    have hF1 : (1000 : ℚ) ≤ F := by exact_mod_cast h1
    have hF2 : (F : ℚ) ≤ 2 ^ 53 := by exact_mod_cast h2
    have herr := abs_le.mp (roundDouble_int_error F h1 h2)
    have hx : roundDouble ((F : ℚ) / 1000) < 10 ^ 21 := by
      have : (F : ℚ) / 1000 ≤ 2 ^ 53 := (div_le_self (by linarith) (by norm_num)).trans hF2
      have h3 := herr.2
      norm_num at this h3 ⊢
      linarith
    exact ⟨_, formatFrequency_MHz (F : ℚ) hF1 hx, fixed_int_error F h1 h2⟩
  · intro n
    exact ⟨decimalDigits_isDigit (n / 10), digitChar_isDigit (n % 10) (by omega)⟩

end DXSpider
